import Mathlib

/-!
A verification development for the block cache of this repository
(`src/include/libtorrent/block_cache.hpp`).  The data model (structures,
bitfield counters, the inline `ok_to_evict` predicate, the `cache_op_t`
enum) is embedded from the header.  The bodies of the cache operations
(`inc_block_refcount`, `dec_block_refcount`, `try_read`/`copy_from_piece`,
`add_dirty_block`, `blocks_flushed`, `abort_dirty`, `insert_blocks`,
`try_evict_blocks`, `cache_hit`) are declared in the header but their
implementation file is not part of the snapshot; those are modelled from
the specification's §3-§4 and are marked as such in their doc comments.

Conventions of the embedding:
* C++ bitfields (e.g. `std::uint32_t refcount:29`) become `Nat` fields;
  the numeric range contract of each field is proved as an invariant
  rather than baked into the type.
* one-bit fields become `Bool`;
* `char* buf` is abstracted to presence (`Bool`): nothing in the claims
  depends on buffer contents;
* the SHA-1 context inside `partial_hash` is dropped: only the `offset`
  member is ever inspected by the cache bookkeeping;
* `tailqueue<disk_io_job>` queues become `List Nat` (job identifiers);
* byte offsets are abstracted to block granularity: `try_read` counts
  referenced blocks instead of bytes (the block size is a cache-wide
  constant, so the two are proportional).
-/

namespace BlockCache

/-- From `block_cache.hpp` lines 113-120: `struct partial_hash` holds the
number of bytes hashed so far (`offset`) and a SHA-1 context, which the
cache logic never inspects and is therefore dropped here. -/
structure partial_hash where
  offset : Nat
  deriving DecidableEq

/-- From `block_cache.hpp` lines 122-171: per-block state.  `buf` is a
pointer in the source; only presence matters to the cache bookkeeping. -/
structure cached_block_entry where
  buf : Bool
  refcount : Nat
  dirty : Bool
  pending : Bool
  cache_hit : Bool
  deriving DecidableEq

/-- From `block_cache.hpp` line 134:
`static constexpr int max_refcount = (1 << 29) - 1`. -/
def cached_block_entry.max_refcount : Nat := 2 ^ 29 - 1

/-- From `block_cache.hpp` lines 261-295: the LRU list a piece is chained
into (`cached_piece_entry::cache_state_t`). -/
inductive cache_state_t where
  | none
  | write_lru
  | volatile_read_lru
  | read_lru1
  | read_lru1_ghost
  | read_lru2
  | read_lru2_ghost
  deriving DecidableEq

/-- From `block_cache.hpp` lines 175-341: per-piece state.  Bitfield
counters become `Nat`, one-bit flags become `Bool`, job queues become
lists of job identifiers, `storage` is dropped (a single storage is
modelled) and `piece` is the identity. -/
structure cached_piece_entry where
  piece : Nat
  hash : Option partial_hash
  blocks : List cached_block_entry
  num_dirty : Nat
  num_blocks : Nat
  blocks_in_piece : Nat
  hashing : Bool
  hashing_done : Bool
  marked_for_deletion : Bool
  need_readback : Bool
  cache_state : cache_state_t
  piece_refcount : Nat
  outstanding_flush : Bool
  outstanding_read : Bool
  marked_for_eviction : Bool
  pinned : Nat
  refcount : Nat
  read_jobs : List Nat
  jobs : List Nat
  deriving DecidableEq

/-- From `block_cache.hpp` lines 185-193:
```
bool ok_to_evict(bool ignore_hash = false) const
{
    return refcount == 0
        && piece_refcount == 0
        && !hashing
        && read_jobs.empty()
        && outstanding_read == 0
        && (ignore_hash || !hash || hash->offset == 0);
}
``` -/
def cached_piece_entry.ok_to_evict (p : cached_piece_entry)
    (ignore_hash : Bool := false) : Bool :=
  p.refcount == 0
    && p.piece_refcount == 0
    && !p.hashing
    && p.read_jobs.isEmpty
    && !p.outstanding_read
    && (ignore_hash || (match p.hash with
        | Option.none => true
        | Option.some h => h.offset == 0))

/-- From `block_cache.hpp` lines 513-518: `enum cache_op_t` — the state
driving which read list evictions prefer. -/
inductive cache_op_t where
  | cache_miss
  | ghost_hit_lru1
  | ghost_hit_lru2
  deriving DecidableEq

/-- The cache-wide block counters of `block_cache` (`block_cache.hpp`
lines 530-549): `m_read_cache_size`, `m_write_cache_size`,
`m_pinned_blocks`, `m_send_buffer_blocks`. -/
structure cache_counters where
  read_cache_size : Nat
  write_cache_size : Nat
  pinned_blocks : Nat
  send_buffer_blocks : Nat
  deriving DecidableEq

/-- The number of blocks with `refcount > 0` (what the `pinned` bitfield
of a piece is documented to count, `block_cache.hpp` line 322). -/
def pinned_count (bs : List cached_block_entry) : Nat :=
  bs.countP (fun b => decide (0 < b.refcount))

/-- The sum of all block refcounts (what the `refcount` member of a piece
is documented to hold, `block_cache.hpp` line 327). -/
def refcount_sum (bs : List cached_block_entry) : Nat :=
  (bs.map cached_block_entry.refcount).sum

/-- Spec invariant (I3)/(P2): `p.pinned == #{i : p.blocks[i].refcount > 0}`
and `p.refcount == Σ p.blocks[i].refcount`. -/
def piece_I3 (pe : cached_piece_entry) : Prop :=
  pe.pinned = pinned_count pe.blocks ∧ pe.refcount = refcount_sum pe.blocks

/-- Modelled from the spec: the body of `block_cache::inc_block_refcount`
(declared at `block_cache.hpp` line 480) is not in the snapshot.  §4.5:
"`inc_block_refcount(p, block, reason)` → `false` if `buf` is absent; else
increment refcount (saturating check against `max_refcount = 2²⁹−1`), and
if refcount transitioned 0→1 increment `p.pinned` and `pinned_blocks`."
The per-piece `refcount` sum is maintained per invariant (I3).  The
`reason` argument only affects debug counters and is dropped. -/
def inc_block_refcount (pe : cached_piece_entry) (block : Nat)
    (c : cache_counters) : Bool × cached_piece_entry × cache_counters :=
  match pe.blocks.get? block with
  | Option.none => (false, pe, c)
  | Option.some b =>
    if b.buf = false then (false, pe, c)
    else if b.refcount = cached_block_entry.max_refcount then (false, pe, c)
    else
      (true,
       { pe with
         blocks := pe.blocks.set block { b with refcount := b.refcount + 1 }
         refcount := pe.refcount + 1
         pinned := if b.refcount = 0 then pe.pinned + 1 else pe.pinned },
       if b.refcount = 0 then { c with pinned_blocks := c.pinned_blocks + 1 }
       else c)

/-- Modelled from the spec: the raw counter decrement shared by
`dec_block_refcount` and the `try_read` failure rollback (§4.3 step 4
"decrement every refcount taken so far").  Symmetric to
`inc_block_refcount`; decrementing a zero refcount is a precondition
violation (§7) and is modelled as leaving the state unchanged. -/
def dec_ref_raw (pe : cached_piece_entry) (block : Nat)
    (c : cache_counters) : cached_piece_entry × cache_counters :=
  match pe.blocks.get? block with
  | Option.none => (pe, c)
  | Option.some b =>
    if b.refcount = 0 then (pe, c)
    else
      ({ pe with
         blocks := pe.blocks.set block { b with refcount := b.refcount - 1 }
         refcount := pe.refcount - 1
         pinned := if b.refcount = 1 then pe.pinned - 1 else pe.pinned },
       if b.refcount = 1 then { c with pinned_blocks := c.pinned_blocks - 1 }
       else c)

/-- Modelled from the spec: counter adjustment when a piece's buffers are
all released (ghost demotion or erasure).  Spec (I6): the clean blocks of
the piece are counted in `read_cache_size` and the dirty ones in
`write_cache_size`. -/
def release_counters (pe : cached_piece_entry) (c : cache_counters) :
    cache_counters :=
  { c with
    read_cache_size := c.read_cache_size - (pe.num_blocks - pe.num_dirty)
    write_cache_size := c.write_cache_size - pe.num_dirty }

/-- Modelled from the spec: which ghost list a piece is demoted into
(§4.2: `move_to_ghost` relinks `read_lru1 → read_lru1_ghost` and
`read_lru2 → read_lru2_ghost`; any other resident list demotes like
list 1). -/
def ghost_list_of (s : cache_state_t) : cache_state_t :=
  match s with
  | cache_state_t.read_lru2 => cache_state_t.read_lru2_ghost
  | _ => cache_state_t.read_lru1_ghost

/-- Modelled from the spec: ghost demotion of a piece (§4.2, P4, I5): all
buffers are freed, the `blocks` array is dropped, and the piece retains
identity in the corresponding ghost list.  With no buffers left, the
block-derived counters are all zero (I1-I3). -/
def demote_to_ghost (pe : cached_piece_entry) : cached_piece_entry :=
  { pe with
    blocks := []
    num_blocks := 0
    num_dirty := 0
    pinned := 0
    refcount := 0
    hash := Option.none
    cache_state := ghost_list_of pe.cache_state
    marked_for_eviction := false }

/-- Modelled from the spec: `block_cache::maybe_free_piece` (declared at
`block_cache.hpp` line 426) — §4.5: when refcounts drain on a piece marked
for removal, "either demotes to ghost (if mode == allow_ghost) or erases
the piece outright".  The mode is `disallow_ghost` exactly when the piece
is `marked_for_deletion`.  Removal still requires the piece to be free of
pins (§4.5: "with all blocks unpinned and `piece_refcount == 0`"),
expressed through `ok_to_evict` ignoring the partial hash. -/
def maybe_free_piece (pe : cached_piece_entry) (c : cache_counters) :
    Option cached_piece_entry × cache_counters :=
  if pe.ok_to_evict true = true then
    if pe.marked_for_deletion = true then
      (Option.none, release_counters pe c)
    else (Option.some (demote_to_ghost pe), release_counters pe c)
  else (Option.some pe, c)

/-- Modelled from the spec: the body of `block_cache::dec_block_refcount`
(declared at `block_cache.hpp` line 481) is not in the snapshot.  §4.5:
symmetric to `inc_block_refcount`; "On transition N→0, if the block is no
longer dirty and the piece is `marked_for_eviction` with all blocks
unpinned and `piece_refcount == 0`, the engine synchronously runs
`maybe_free_piece`". -/
def dec_block_refcount (pe : cached_piece_entry) (block : Nat)
    (c : cache_counters) : Option cached_piece_entry × cache_counters :=
  match pe.blocks.get? block with
  | Option.none => (Option.some pe, c)
  | Option.some b =>
    if b.refcount = 0 then (Option.some pe, c)
    else
      let s := dec_ref_raw pe block c
      if b.refcount = 1 ∧ b.dirty = false ∧ s.1.marked_for_eviction = true
          ∧ s.1.pinned = 0 ∧ s.1.piece_refcount = 0 then
        maybe_free_piece s.1 s.2
      else (Option.some s.1, s.2)

/-- Modelled from the spec: §4.3 step 4 — on an intermediate `try_read`
failure the blocks whose refcounts were taken so far (`taken`, most
recent first) are decremented again. -/
def roll_back (pe : cached_piece_entry) (c : cache_counters)
    (taken : List Nat) : cached_piece_entry × cache_counters :=
  taken.foldl (fun s j => dec_ref_raw s.1 j s.2) (pe, c)

/-- Modelled from the spec: §4.3 step 2 marks a block `cache_hit = 1`
after it has been referenced by a read. -/
def mark_hit_block (pe : cached_piece_entry) (i : Nat) :
    cached_piece_entry :=
  match pe.blocks.get? i with
  | Option.none => pe
  | Option.some b =>
    { pe with blocks := pe.blocks.set i { b with cache_hit := true } }

/-- Modelled from the spec: mark `cache_hit` on each block of the covered
range (applied once the whole range has been referenced). -/
def mark_hits : cached_piece_entry → Nat → Nat → cached_piece_entry
  | pe, _, 0 => pe
  | pe, i, r + 1 => mark_hits (mark_hit_block pe i) (i + 1) r

/-- Modelled from the spec: the block-walking loop of
`block_cache::copy_from_piece` (declared at `block_cache.hpp` lines
491-492; its body is not in the snapshot).  §4.3: "for each block, if
`buf` absent or `pending`, return `MISS`; else increment its refcount";
step 4: "On any intermediate failure (a pending/absent block), roll back:
decrement every refcount taken so far, release any allocator handles,
return `MISS`."  `i` is the next block, `r` the number of blocks still to
cover, `taken` the blocks already referenced (most recent first).  On
success the result is the number of blocks referenced (byte counts are
abstracted to block granularity). -/
def copy_from_piece_go :
    cached_piece_entry → cache_counters → Nat → Nat → List Nat →
      Int × cached_piece_entry × cache_counters
  | pe, c, _, 0, taken => (Int.ofNat taken.length, pe, c)
  | pe, c, i, r + 1, taken =>
    match pe.blocks.get? i with
    | Option.none =>
      let s := roll_back pe c taken
      (-1, s.1, s.2)
    | Option.some b =>
      if b.buf = true ∧ b.pending = false then
        match inc_block_refcount pe i c with
        | (true, pe2, c2) => copy_from_piece_go pe2 c2 (i + 1) r (i :: taken)
        | (false, _, _) =>
          let s := roll_back pe c taken
          (-1, s.1, s.2)
      else
        let s := roll_back pe c taken
        (-1, s.1, s.2)

/-- Modelled from the spec: `block_cache::copy_from_piece` over the block
range `[bstart, bstart + len)`.  On success the referenced blocks are
marked `cache_hit` and `send_buffer_blocks` accounts the new holds
(§4.3 step 3). -/
def copy_from_piece (pe : cached_piece_entry) (c : cache_counters)
    (bstart len : Nat) : Int × cached_piece_entry × cache_counters :=
  let s := copy_from_piece_go pe c bstart len []
  if s.1 = -1 then s
  else
    (s.1, mark_hits s.2.1 bstart len,
     { s.2.2 with send_buffer_blocks := s.2.2.send_buffer_blocks + len })

/-- Modelled from the spec: the piece-level part of `block_cache::try_read`
(declared at `block_cache.hpp` lines 400-401): once the piece is found
resident, the result is `copy_from_piece` (§4.3 step 2); −1 is `MISS`. -/
def try_read (pe : cached_piece_entry) (c : cache_counters)
    (bstart len : Nat) : Int × cached_piece_entry × cache_counters :=
  copy_from_piece pe c bstart len

/-- Whether a block of the piece can serve a read (§4.3): its buffer is
present and no I/O is outstanding on it. -/
def block_readable (pe : cached_piece_entry) (j : Nat) : Bool :=
  match pe.blocks.get? j with
  | Option.none => false
  | Option.some b => b.buf && !b.pending

/-- Modelled from the spec: the body of `block_cache::add_dirty_block`
(declared at `block_cache.hpp` line 451) is not in the snapshot.  §4.4:
attach the job's buffer to `blocks[block]`, set `dirty = 1, pending = 0`,
increment `num_blocks` (when newly present), `num_dirty` and
`write_cache_size`, append the job, move the piece to `write_lru`.  A
duplicate write frees the existing clean buffer first (its block count
moves from the read to the write side); a duplicate *dirty* write is a
caller error (§4.4 item 5) modelled as leaving the state unchanged. -/
def add_dirty_block (pe : cached_piece_entry) (block : Nat) (job : Nat)
    (c : cache_counters) : cached_piece_entry × cache_counters :=
  match pe.blocks.get? block with
  | Option.none => (pe, c)
  | Option.some b =>
    if b.dirty = true then (pe, c)
    else
      ({ pe with
         blocks := pe.blocks.set block
           { b with buf := true, dirty := true, pending := false }
         num_blocks := if b.buf = true then pe.num_blocks else pe.num_blocks + 1
         num_dirty := pe.num_dirty + 1
         cache_state := cache_state_t.write_lru
         jobs := pe.jobs ++ [job] },
       { c with
         write_cache_size := c.write_cache_size + 1
         read_cache_size := if b.buf = true then c.read_cache_size - 1
           else c.read_cache_size })

/-- Modelled from the spec: one step of `block_cache::blocks_flushed`
(§4.4): "For each index in `flushed`, assert `dirty == 1 ∧ pending == 0`;
clear `dirty`; decrement `num_dirty` and `write_cache_size`; increment
`read_cache_size`."  An index violating the assertion (§7 precondition
violation) is modelled as skipped. -/
def flush_one (pe : cached_piece_entry) (c : cache_counters) (j : Nat) :
    cached_piece_entry × cache_counters :=
  match pe.blocks.get? j with
  | Option.none => (pe, c)
  | Option.some b =>
    if b.dirty = true ∧ b.pending = false then
      ({ pe with
         blocks := pe.blocks.set j { b with dirty := false }
         num_dirty := pe.num_dirty - 1 },
       { c with
         write_cache_size := c.write_cache_size - 1
         read_cache_size := c.read_cache_size + 1 })
    else (pe, c)

/-- Modelled from the spec: the relink of a fully clean piece out of
`write_lru` (§4.4): "otherwise relink from `write_lru` into the
appropriate read list (list 1 if freshly admitted, list 2 if previously
promoted)".  "Previously promoted" is read off the blocks' `cache_hit`
bits (a block read twice promotes the piece, §3.2); the now-clean
completion jobs are posted (emptied). -/
def relink_after_flush (pe : cached_piece_entry) : cached_piece_entry :=
  { pe with
    cache_state :=
      if pe.blocks.any (fun b => b.cache_hit) then cache_state_t.read_lru2
      else cache_state_t.read_lru1
    jobs := [] }

/-- The per-index phase of `blocks_flushed`: `flush_one` folded over the
flushed indices. -/
def flush_fold (pe : cached_piece_entry) (c : cache_counters)
    (flushed : List Nat) : cached_piece_entry × cache_counters :=
  flushed.foldl (fun s j => flush_one s.1 s.2 j) (pe, c)

/-- Modelled from the spec: the body of `block_cache::blocks_flushed`
(declared at `block_cache.hpp` line 446) is not in the snapshot.  §4.4:
clear `dirty` on each flushed index, adjusting `num_dirty`,
`write_cache_size` and `read_cache_size`; "If `num_dirty == 0`: if
`need_readback` or `marked_for_eviction`, release all buffers and demote
to ghost; otherwise relink from `write_lru` into the appropriate read
list.  Return `true` if the piece was freed."  Removal of a pinned piece
is deferred (§4.5, P3), and a `marked_for_deletion` piece is erased
rather than ghosted (§4.5). -/
def blocks_flushed (pe : cached_piece_entry) (flushed : List Nat)
    (c : cache_counters) :
    Bool × Option cached_piece_entry × cache_counters :=
  let s := flush_fold pe c flushed
  if s.1.num_dirty = 0 then
    if s.1.need_readback = true ∨ s.1.marked_for_eviction = true then
      if s.1.ok_to_evict true = true then
        if s.1.marked_for_deletion = true then
          (true, Option.none, release_counters s.1 s.2)
        else (false, Option.some (demote_to_ghost s.1), release_counters s.1 s.2)
      else (false, Option.some s.1, s.2)
    else (false, Option.some (relink_after_flush s.1), s.2)
  else (false, Option.some s.1, s.2)

/-- A freed (reset) block entry: no buffer, no references, no flags. -/
def cleared_block : cached_block_entry :=
  { buf := false, refcount := 0, dirty := false, pending := false
    cache_hit := false }

/-- The blocks `abort_dirty` frees (§4.4): dirty, unreferenced, with a
buffer present. -/
def abort_pred (b : cached_block_entry) : Bool :=
  b.buf && b.dirty && b.refcount == 0

/-- Free a block if `abort_dirty` may reclaim it, else keep it. -/
def abort_map (b : cached_block_entry) : cached_block_entry :=
  if abort_pred b then cleared_block else b

/-- Modelled from the spec: the body of `block_cache::abort_dirty`
(declared at `block_cache.hpp` line 440) is not in the snapshot.  §4.4:
"`abort_dirty(p)` frees every block with `dirty && refcount == 0`,
clearing their dirty flags ...  Blocks with `refcount > 0` keep their
dirty state and are freed by the refcount-drop path." -/
def abort_dirty (pe : cached_piece_entry) (c : cache_counters) :
    cached_piece_entry × cache_counters :=
  let freed := pe.blocks.countP abort_pred
  ({ pe with
     blocks := pe.blocks.map abort_map
     num_blocks := pe.num_blocks - freed
     num_dirty := pe.num_dirty - freed },
   { c with write_cache_size := c.write_cache_size - freed })

/-- Modelled from the spec: one block of `block_cache::insert_blocks`
(declared at `block_cache.hpp` lines 454-455; §4.3, §6): a disk-read
completion fills the block in, clearing `pending`; an overlap with an
already valid block keeps the existing buffer; with the
`blocks_inc_refcount` flag the inserted block's refcount is taken. -/
def insert_one (pe : cached_piece_entry) (c : cache_counters) (i : Nat)
    (incRef : Bool) : cached_piece_entry × cache_counters :=
  match pe.blocks.get? i with
  | Option.none => (pe, c)
  | Option.some b =>
    if b.buf = true ∧ b.pending = false then (pe, c)
    else
      let pe2 := { pe with
        blocks := pe.blocks.set i { b with buf := true, pending := false }
        num_blocks := if b.buf = true then pe.num_blocks
          else pe.num_blocks + 1 }
      let c2 := if b.buf = true then c
        else { c with read_cache_size := c.read_cache_size + 1 }
      if incRef = true then
        ((inc_block_refcount pe2 i c2).2.1, (inc_block_refcount pe2 i c2).2.2)
      else (pe2, c2)

/-- Modelled from the spec: `block_cache::insert_blocks` over the block
range `[bstart, bstart + nbufs)`.  On completion the outstanding read is
cleared and the queued read jobs are drained (§4.3, Coalescing). -/
def insert_blocks (pe : cached_piece_entry) (c : cache_counters)
    (bstart nbufs : Nat) (incRef : Bool) :
    cached_piece_entry × cache_counters :=
  let s := (List.range nbufs).foldl
    (fun s k => insert_one s.1 s.2 (bstart + k) incRef) (pe, c)
  ({ s.1 with outstanding_read := false, read_jobs := [] }, s.2)

/-- Modelled from the spec: whether `try_evict_blocks` may take a piece's
buffers (§4.2): "A piece is skipped if it equals `ignore` or fails the
evictability predicate (P3)." -/
def evict_candidate (ignore : Option Nat) (pe : cached_piece_entry) :
    Bool :=
  (match ignore with
   | Option.none => true
   | Option.some pid => !(pe.piece == pid))
  && pe.ok_to_evict false

/-- Modelled from the spec: the body of `block_cache::try_evict_blocks`
(declared at `block_cache.hpp` line 465) is not in the snapshot.  §4.2:
walk the eviction candidates (the caller supplies them already in the
list-preference order), skip a piece equal to `ignore` or failing P3,
drain an evictable piece of its buffers and demote it to its ghost list,
stop once `num` buffers were freed; "The function returns the number of
blocks it *could not* free (i.e. shortfall)." -/
def try_evict_blocks_go :
    List cached_piece_entry → Nat → Option Nat → cache_counters →
      Nat × List cached_piece_entry × cache_counters
  | [], num, _, c => (num, [], c)
  | pe :: rest, num, ignore, c =>
    if num = 0 then (0, pe :: rest, c)
    else if evict_candidate ignore pe = true then
      let s := try_evict_blocks_go rest (num - pe.num_blocks) ignore
        (release_counters pe c)
      (s.1, demote_to_ghost pe :: s.2.1, s.2.2)
    else
      let s := try_evict_blocks_go rest num ignore c
      (s.1, pe :: s.2.1, s.2.2)

/-- Modelled from the spec: `block_cache::try_evict_blocks` (see
`try_evict_blocks_go`). -/
def try_evict_blocks (pieces : List cached_piece_entry) (num : Nat)
    (ignore : Option Nat) (c : cache_counters) :
    Nat × List cached_piece_entry × cache_counters :=
  try_evict_blocks_go pieces num ignore c

/-- The mutating cache operations of the spec's §4 (the ones the claims
range over), each applied to the piece at index `pidx` of the cache's
piece list (or to the whole list, for eviction). -/
inductive cache_op where
  | op_add_dirty (pidx block job : Nat)
  | op_try_read (pidx bstart len : Nat)
  | op_blocks_flushed (pidx : Nat) (flushed : List Nat)
  | op_inc (pidx block : Nat)
  | op_dec (pidx block : Nat)
  | op_try_evict (num : Nat) (ignore : Option Nat)
  | op_abort_dirty (pidx : Nat)
  | op_insert_blocks (pidx bstart nbufs : Nat) (incRef : Bool)

/-- The cache state the claims' invariants range over: the piece entries
(`m_pieces`) together with the cache-wide block counters. -/
structure block_cache where
  pieces : List cached_piece_entry
  counters : cache_counters
  deriving DecidableEq

/-- Apply a piece-level operation to the piece at index `pidx`; an
operation returning no piece erased it from the cache. -/
def update_piece_at (s : block_cache) (pidx : Nat)
    (f : cached_piece_entry → cache_counters →
      Option cached_piece_entry × cache_counters) : block_cache :=
  match s.pieces.get? pidx with
  | Option.none => s
  | Option.some pe =>
    match f pe s.counters with
    | (Option.none, c2) => { pieces := s.pieces.eraseIdx pidx, counters := c2 }
    | (Option.some pe2, c2) => { pieces := s.pieces.set pidx pe2, counters := c2 }

/-- One complete cache operation, as a step on the cache state. -/
def apply_op (op : cache_op) (s : block_cache) : block_cache :=
  match op with
  | cache_op.op_add_dirty pidx block job =>
    update_piece_at s pidx (fun pe c =>
      (Option.some (add_dirty_block pe block job c).1,
       (add_dirty_block pe block job c).2))
  | cache_op.op_try_read pidx bstart len =>
    update_piece_at s pidx (fun pe c =>
      (Option.some (try_read pe c bstart len).2.1, (try_read pe c bstart len).2.2))
  | cache_op.op_blocks_flushed pidx flushed =>
    update_piece_at s pidx (fun pe c =>
      ((blocks_flushed pe flushed c).2.1, (blocks_flushed pe flushed c).2.2))
  | cache_op.op_inc pidx block =>
    update_piece_at s pidx (fun pe c =>
      (Option.some (inc_block_refcount pe block c).2.1,
       (inc_block_refcount pe block c).2.2))
  | cache_op.op_dec pidx block =>
    update_piece_at s pidx (fun pe c => dec_block_refcount pe block c)
  | cache_op.op_try_evict num ignore =>
    { pieces := (try_evict_blocks s.pieces num ignore s.counters).2.1
      counters := (try_evict_blocks s.pieces num ignore s.counters).2.2 }
  | cache_op.op_abort_dirty pidx =>
    update_piece_at s pidx (fun pe c =>
      (Option.some (abort_dirty pe c).1, (abort_dirty pe c).2))
  | cache_op.op_insert_blocks pidx bstart nbufs incRef =>
    update_piece_at s pidx (fun pe c =>
      (Option.some (insert_blocks pe c bstart nbufs incRef).1,
       (insert_blocks pe c bstart nbufs incRef).2))

/-- The LRU lists of the cache (`m_lru`, `block_cache.hpp` line 509) as
lists of piece identities, most recently used at the tail, together with
`m_last_cache_op` (line 519).  Only the lists involved in the ARC
transitions are kept. -/
structure arc_lists where
  lru1 : List Nat
  lru1_ghost : List Nat
  lru2 : List Nat
  lru2_ghost : List Nat
  last_cache_op : cache_op_t
  deriving DecidableEq

/-- Unlink a piece identity from an intrusive LRU list. -/
def remove_id (l : List Nat) (pid : Nat) : List Nat :=
  l.filter (fun x => !(x == pid))

/-- Modelled from the spec: the body of `block_cache::cache_hit` (declared
at `block_cache.hpp` line 406) is not in the snapshot.  §4.2/§4.3: a hit
in `read_lru1` whose block's `cache_hit` bit was already set moves the
piece to the MRU of `read_lru2`; a hit in `read_lru2` moves it to the MRU
of `read_lru2`; a hit in a ghost list re-admits the piece at the MRU of
`read_lru2` and records the ghost hit in `last_cache_op`; volatile reads
bypass the ARC lists. -/
def cache_hit (pe : cached_piece_entry) (pid block : Nat)
    (volatile_read : Bool) (s : arc_lists) :
    cached_piece_entry × arc_lists :=
  let second_hit := match pe.blocks.get? block with
    | Option.none => false
    | Option.some b => b.cache_hit
  let pe1 := mark_hit_block pe block
  if volatile_read = true then (pe1, s)
  else
    match pe.cache_state with
    | cache_state_t.read_lru1 =>
      if second_hit = true then
        ({ pe1 with cache_state := cache_state_t.read_lru2 },
         { s with
           lru1 := remove_id s.lru1 pid
           lru2 := remove_id s.lru2 pid ++ [pid] })
      else (pe1, s)
    | cache_state_t.read_lru2 =>
      (pe1, { s with lru2 := remove_id s.lru2 pid ++ [pid] })
    | cache_state_t.read_lru1_ghost =>
      ({ pe1 with cache_state := cache_state_t.read_lru2 },
       { s with
         lru1_ghost := remove_id s.lru1_ghost pid
         lru2 := remove_id s.lru2 pid ++ [pid]
         last_cache_op := cache_op_t.ghost_hit_lru1 })
    | cache_state_t.read_lru2_ghost =>
      ({ pe1 with cache_state := cache_state_t.read_lru2 },
       { s with
         lru2_ghost := remove_id s.lru2_ghost pid
         lru2 := remove_id s.lru2 pid ++ [pid]
         last_cache_op := cache_op_t.ghost_hit_lru2 })
    | _ => (pe1, s)

/-- Modelled from the spec: which read list evictions prefer victims from
(§4.2): "on a ghost hit in list 1, subsequent evictions prefer blocks
from list 2; on a ghost hit in list 2, from list 1; on a miss, from the
larger of the two" (ties while `cache_miss` prefer list 1). -/
def evict_preference (op : cache_op_t) (len1 len2 : Nat) : cache_state_t :=
  match op with
  | cache_op_t.ghost_hit_lru1 => cache_state_t.read_lru2
  | cache_op_t.ghost_hit_lru2 => cache_state_t.read_lru1
  | cache_op_t.cache_miss =>
    if len2 ≤ len1 then cache_state_t.read_lru1 else cache_state_t.read_lru2

/-- The fields of a piece entry that the per-block flush accounting never
touches: everything except `blocks` and `num_dirty`. -/
def piece_meta (pe : cached_piece_entry) :=
  (pe.piece, pe.hash, pe.num_blocks, pe.blocks_in_piece, pe.hashing,
   pe.hashing_done, pe.marked_for_deletion, pe.need_readback, pe.cache_state,
   pe.piece_refcount, pe.outstanding_flush, pe.outstanding_read,
   pe.marked_for_eviction, pe.pinned, pe.refcount, pe.read_jobs, pe.jobs)

/-- Two piece entries agreeing on everything except `blocks` and
`num_dirty`. -/
def same_piece_meta (p1 p2 : cached_piece_entry) : Prop :=
  piece_meta p1 = piece_meta p2

/-- The precondition of `blocks_flushed` (its per-index assertion, §4.4):
each flushed index addresses a block that is dirty with no outstanding
I/O. -/
def flush_pre (pe : cached_piece_entry) (flushed : List Nat) : Prop :=
  ∀ j ∈ flushed, ∃ b, pe.blocks.get? j = Option.some b ∧
    b.dirty = true ∧ b.pending = false

/-- A concrete block holding one outstanding reference, for the
witnesses. -/
def wblock : cached_block_entry :=
  { buf := true, refcount := 1, dirty := false, pending := false
    cache_hit := false }

/-- A concrete block whose read is still outstanding (`pending`). -/
def wblock_pending : cached_block_entry :=
  { buf := true, refcount := 0, dirty := false, pending := true
    cache_hit := false }

/-- A concrete resident two-block piece, for the witnesses. -/
def wpiece : cached_piece_entry :=
  { piece := 7, hash := Option.none, blocks := [wblock, wblock_pending]
    num_dirty := 0, num_blocks := 2, blocks_in_piece := 2, hashing := false
    hashing_done := false, marked_for_deletion := false
    need_readback := false, cache_state := cache_state_t.read_lru1
    piece_refcount := 0, outstanding_flush := false
    outstanding_read := false, marked_for_eviction := false, pinned := 1
    refcount := 1, read_jobs := [], jobs := [] }

/-- Concrete cache-wide counters matching `wpiece`, for the witnesses. -/
def wcounters : cache_counters :=
  { read_cache_size := 2, write_cache_size := 0, pinned_blocks := 1
    send_buffer_blocks := 0 }

/-- The total number of cached buffers over a list of piece entries (what
`try_evict_blocks` draws down). -/
def total_cached_blocks (pieces : List cached_piece_entry) : Nat :=
  (pieces.map (fun pe => pe.num_blocks)).sum

/-- The data-model invariants of one piece entry that the range claims
rest on: (I1), (I2)'s count, (I3)/(P2), the `blocks_in_piece` bound of
§9 ("Bitfield packing"), the 7-bit `piece_refcount` bound, and the
per-block `refcount` bound maintained by the saturation check. -/
def piece_inv (pe : cached_piece_entry) : Prop :=
  pe.blocks_in_piece ≤ 2 ^ 14 - 1 ∧
  pe.blocks.length ≤ pe.blocks_in_piece ∧
  pe.num_blocks = pe.blocks.countP (fun b => b.buf) ∧
  pe.num_dirty = pe.blocks.countP (fun b => b.dirty) ∧
  piece_I3 pe ∧
  pe.piece_refcount ≤ 127 ∧
  ∀ b ∈ pe.blocks, b.refcount ≤ cached_block_entry.max_refcount

/-- The numeric range contract of the packed bitfields (§9, "Bitfield
packing", and `block_cache.hpp` lines 142, 229-236, 297-328):
`num_blocks`, `num_dirty` and `blocks_in_piece` are 14-bit fields,
`piece_refcount` 7 bits, `pinned` 15 bits, each block `refcount`
29 bits. -/
def ranges_ok (pe : cached_piece_entry) : Prop :=
  pe.num_blocks ≤ 2 ^ 14 - 1 ∧ pe.num_dirty ≤ 2 ^ 14 - 1 ∧
  pe.blocks_in_piece ≤ 2 ^ 14 - 1 ∧ pe.piece_refcount ≤ 127 ∧
  pe.pinned ≤ 2 ^ 15 - 1 ∧
  ∀ b ∈ pe.blocks, b.refcount ≤ 2 ^ 29 - 1

/-- The cache-wide invariant: every piece entry satisfies `piece_inv`. -/
def cache_inv (s : block_cache) : Prop := ∀ pe ∈ s.pieces, piece_inv pe

/-- A concrete dirty block, for the witnesses. -/
def wdirty : cached_block_entry :=
  { buf := true, refcount := 0, dirty := true, pending := false
    cache_hit := false }

/-- A concrete fully dirty two-block piece in the write list, for the
witnesses. -/
def wpiece_write : cached_piece_entry :=
  { piece := 9, hash := Option.none, blocks := [wdirty, wdirty]
    num_dirty := 2, num_blocks := 2, blocks_in_piece := 2, hashing := false
    hashing_done := false, marked_for_deletion := false
    need_readback := false, cache_state := cache_state_t.write_lru
    piece_refcount := 0, outstanding_flush := false
    outstanding_read := false, marked_for_eviction := false, pinned := 0
    refcount := 0, read_jobs := [], jobs := [3, 4] }

/-- Concrete cache-wide counters matching `wpiece_write`. -/
def wcounters_write : cache_counters :=
  { read_cache_size := 0, write_cache_size := 2, pinned_blocks := 0
    send_buffer_blocks := 0 }

/-- A concrete ghost piece (re-admission candidate), for the witnesses. -/
def wpiece_ghost : cached_piece_entry :=
  { piece := 11, hash := Option.none, blocks := [], num_dirty := 0
    num_blocks := 0, blocks_in_piece := 2, hashing := false
    hashing_done := false, marked_for_deletion := false
    need_readback := false, cache_state := cache_state_t.read_lru1_ghost
    piece_refcount := 0, outstanding_flush := false
    outstanding_read := false, marked_for_eviction := false, pinned := 0
    refcount := 0, read_jobs := [], jobs := [] }

/-- Concrete ARC lists holding `wpiece_ghost` in the list-1 ghost list. -/
def warc : arc_lists :=
  { lru1 := [], lru1_ghost := [11], lru2 := [5], lru2_ghost := []
    last_cache_op := cache_op_t.cache_miss }

/-- A concrete pinned dirty block (still referenced by a peer or a hash
job), for the C4 counterexample. -/
def wdirty_pinned : cached_block_entry :=
  { buf := true, refcount := 1, dirty := true, pending := false
    cache_hit := false }

/-- A fully dirty piece marked for eviction whose first block is still
referenced: flushing it clean must not drop its buffers. -/
def wpiece_pinned : cached_piece_entry :=
  { piece := 13, hash := Option.none, blocks := [wdirty_pinned, wdirty]
    num_dirty := 2, num_blocks := 2, blocks_in_piece := 2, hashing := false
    hashing_done := false, marked_for_deletion := false
    need_readback := false, cache_state := cache_state_t.write_lru
    piece_refcount := 0, outstanding_flush := false
    outstanding_read := false, marked_for_eviction := true, pinned := 1
    refcount := 1, read_jobs := [], jobs := [] }

/-- Concrete cache-wide counters matching `wpiece_pinned`. -/
def wcounters_pinned : cache_counters :=
  { read_cache_size := 0, write_cache_size := 2, pinned_blocks := 1
    send_buffer_blocks := 0 }

/-- A concrete one-piece cache state, for the witnesses. -/
def wcache : block_cache :=
  { pieces := [wpiece_write], counters := wcounters_write }

end BlockCache

namespace BlockCache

/-- C1: with the hash check not ignored, `ok_to_evict` holds exactly when
`refcount == 0 ∧ piece_refcount == 0 ∧ !hashing ∧ read_jobs empty ∧
!outstanding_read ∧ (hash absent ∨ hash.offset == 0)` — the spec's
predicate P3. -/
theorem ok_to_evict_strict_iff_P3 (p : cached_piece_entry) :
    p.ok_to_evict false = true ↔
      (p.refcount = 0 ∧ p.piece_refcount = 0 ∧ p.hashing = false ∧
       p.read_jobs = [] ∧ p.outstanding_read = false ∧
       (p.hash = Option.none ∨ ∃ h, p.hash = Option.some h ∧ h.offset = 0)) := by
  unfold cached_piece_entry.ok_to_evict
  cases hh : p.hash with
  | none =>
    simp [List.isEmpty_iff, and_assoc]
  | some ph =>
    simp only [Bool.and_eq_true, Bool.or_eq_true, Bool.not_eq_true',
      beq_iff_eq, List.isEmpty_iff, Bool.false_eq_true, false_or]
    constructor
    · rintro ⟨⟨⟨⟨⟨h1, h2⟩, h3⟩, h4⟩, h5⟩, h6⟩
      exact ⟨h1, h2, h3, h4, h5, Or.inr ⟨ph, rfl, h6⟩⟩
    · rintro ⟨h1, h2, h3, h4, h5, h6⟩
      refine ⟨⟨⟨⟨⟨h1, h2⟩, h3⟩, h4⟩, h5⟩, ?_⟩
      rcases h6 with h6 | ⟨ph2, hph, hoff⟩
      · exact absurd h6 (by simp)
      · injection hph with h
        rw [h]
        exact hoff

/-- C10: with `ignore_hash = true`, `ok_to_evict` waives only the
partial-hash condition: it holds exactly when `refcount == 0 ∧
piece_refcount == 0 ∧ !hashing ∧ read_jobs empty ∧ !outstanding_read`,
even when `hash` is present with a nonzero hashed offset. -/
theorem ok_to_evict_relaxed_iff (p : cached_piece_entry) :
    p.ok_to_evict true = true ↔
      (p.refcount = 0 ∧ p.piece_refcount = 0 ∧ p.hashing = false ∧
       p.read_jobs = [] ∧ p.outstanding_read = false) := by
  unfold cached_piece_entry.ok_to_evict
  simp [List.isEmpty_iff, and_assoc]

lemma set_of_get?_self {α : Type _} :
    ∀ (l : List α) (i : Nat) (a : α), l.get? i = Option.some a →
      l.set i a = l
  | [], _, _, h => by simp at h
  | x :: xs, 0, a, h => by
    simp only [List.get?_cons_zero, Option.some.injEq] at h
    simp [List.set, h]
  | x :: xs, i + 1, a, h => by
    simp only [List.get?_cons_succ] at h
    simp [List.set, set_of_get?_self xs i a h]

lemma get?_set_self {α : Type _} :
    ∀ (l : List α) (i : Nat) (a b : α), l.get? i = Option.some a →
      (l.set i b).get? i = Option.some b
  | [], _, _, _, h => by simp at h
  | _ :: _, 0, _, _, _ => rfl
  | _ :: xs, i + 1, a, b, h => get?_set_self xs i a b h

lemma countP_set_add {α : Type _} (p : α → Bool) :
    ∀ (l : List α) (i : Nat) (a : α), l.get? i = Option.some a →
      ∀ b : α, (l.set i b).countP p + (if p a then 1 else 0) =
        l.countP p + (if p b then 1 else 0)
  | [], _, _, h => by simp at h
  | x :: xs, 0, a, h => by
    simp only [List.get?_cons_zero, Option.some.injEq] at h
    intro b
    simp [List.set, List.countP_cons, h]
    omega
  | x :: xs, i + 1, a, h => by
    simp only [List.get?_cons_succ] at h
    intro b
    simp only [List.set, List.countP_cons]
    have := countP_set_add p xs i a h b
    omega

lemma refcount_sum_set :
    ∀ (l : List cached_block_entry) (i : Nat) (a : cached_block_entry),
      l.get? i = Option.some a → ∀ b : cached_block_entry,
        refcount_sum (l.set i b) + a.refcount = refcount_sum l + b.refcount
  | [], _, _, h => by simp at h
  | x :: xs, 0, a, h => by
    simp only [List.get?_cons_zero, Option.some.injEq] at h
    intro b
    simp [List.set, refcount_sum, h]
    omega
  | x :: xs, i + 1, a, h => by
    simp only [List.get?_cons_succ] at h
    intro b
    simp only [List.set, refcount_sum, List.map_cons, List.sum_cons]
    have := refcount_sum_set xs i a h b
    simp only [refcount_sum] at this
    omega

lemma pinned_count_set (l : List cached_block_entry) (i : Nat)
    (a : cached_block_entry) (h : l.get? i = Option.some a)
    (b : cached_block_entry) :
    pinned_count (l.set i b) + (if 0 < a.refcount then 1 else 0) =
      pinned_count l + (if 0 < b.refcount then 1 else 0) := by
  have := countP_set_add (fun e => decide (0 < e.refcount)) l i a h b
  simpa [pinned_count] using this

lemma inc_absent (pe : cached_piece_entry) (block : Nat)
    (c : cache_counters) (h : pe.blocks.get? block = Option.none) :
    inc_block_refcount pe block c = (false, pe, c) := by
  unfold inc_block_refcount
  rw [h]

lemma inc_no_buf (pe : cached_piece_entry) (block : Nat)
    (c : cache_counters) (b : cached_block_entry)
    (hget : pe.blocks.get? block = Option.some b) (hbuf : b.buf = false) :
    inc_block_refcount pe block c = (false, pe, c) := by
  unfold inc_block_refcount
  rw [hget]
  simp [hbuf]

lemma inc_saturated (pe : cached_piece_entry) (block : Nat)
    (c : cache_counters) (b : cached_block_entry)
    (hget : pe.blocks.get? block = Option.some b) (hbuf : b.buf = true)
    (hmax : b.refcount = cached_block_entry.max_refcount) :
    inc_block_refcount pe block c = (false, pe, c) := by
  unfold inc_block_refcount
  rw [hget]
  simp [hbuf, hmax]

lemma inc_success (pe : cached_piece_entry) (block : Nat)
    (c : cache_counters) (b : cached_block_entry)
    (hget : pe.blocks.get? block = Option.some b) (hbuf : b.buf = true)
    (hne : b.refcount ≠ cached_block_entry.max_refcount) :
    inc_block_refcount pe block c =
      (true,
       { pe with
         blocks := pe.blocks.set block { b with refcount := b.refcount + 1 }
         refcount := pe.refcount + 1
         pinned := if b.refcount = 0 then pe.pinned + 1 else pe.pinned },
       if b.refcount = 0 then { c with pinned_blocks := c.pinned_blocks + 1 }
       else c) := by
  unfold inc_block_refcount
  rw [hget]
  simp [hbuf, hne]

lemma dec_raw_absent (pe : cached_piece_entry) (block : Nat)
    (c : cache_counters) (h : pe.blocks.get? block = Option.none) :
    dec_ref_raw pe block c = (pe, c) := by
  unfold dec_ref_raw
  rw [h]

lemma dec_raw_zero (pe : cached_piece_entry) (block : Nat)
    (c : cache_counters) (b : cached_block_entry)
    (hget : pe.blocks.get? block = Option.some b) (h0 : b.refcount = 0) :
    dec_ref_raw pe block c = (pe, c) := by
  unfold dec_ref_raw
  rw [hget]
  simp [h0]

lemma dec_raw_pos (pe : cached_piece_entry) (block : Nat)
    (c : cache_counters) (b : cached_block_entry)
    (hget : pe.blocks.get? block = Option.some b)
    (h0 : b.refcount ≠ 0) :
    dec_ref_raw pe block c =
      ({ pe with
         blocks := pe.blocks.set block { b with refcount := b.refcount - 1 }
         refcount := pe.refcount - 1
         pinned := if b.refcount = 1 then pe.pinned - 1 else pe.pinned },
       if b.refcount = 1 then { c with pinned_blocks := c.pinned_blocks - 1 }
       else c) := by
  unfold dec_ref_raw
  rw [hget]
  simp [h0]

/-- C7: `inc_block_refcount` returns `false` on an absent buffer (state
unchanged), checks saturation against `max_refcount = 2²⁹−1` (state
unchanged at the maximum), and otherwise increments the block's
refcount, incrementing `p.pinned` and the cache-wide `pinned_blocks`
exactly when the refcount transitioned 0→1. -/
theorem inc_block_refcount_spec (pe : cached_piece_entry) (block : Nat)
    (c : cache_counters) (b : cached_block_entry)
    (hget : pe.blocks.get? block = Option.some b) :
    (b.buf = false → inc_block_refcount pe block c = (false, pe, c)) ∧
    (b.buf = true → b.refcount = cached_block_entry.max_refcount →
      inc_block_refcount pe block c = (false, pe, c)) ∧
    (b.buf = true → b.refcount < cached_block_entry.max_refcount →
      (inc_block_refcount pe block c).1 = true ∧
      (inc_block_refcount pe block c).2.1.blocks.get? block =
        Option.some { b with refcount := b.refcount + 1 } ∧
      (inc_block_refcount pe block c).2.1.refcount = pe.refcount + 1 ∧
      (inc_block_refcount pe block c).2.1.pinned =
        (if b.refcount = 0 then pe.pinned + 1 else pe.pinned) ∧
      (inc_block_refcount pe block c).2.2.pinned_blocks =
        (if b.refcount = 0 then c.pinned_blocks + 1 else c.pinned_blocks)) := by
  refine ⟨fun hbuf => inc_no_buf pe block c b hget hbuf,
    fun hbuf hmax => inc_saturated pe block c b hget hbuf hmax,
    fun hbuf hlt => ?_⟩
  rw [inc_success pe block c b hget hbuf (Nat.ne_of_lt hlt)]
  refine ⟨rfl, get?_set_self pe.blocks block b _ hget, rfl, rfl, ?_⟩
  by_cases h0 : b.refcount = 0 <;> simp [h0]

lemma get?_inc_self (pe : cached_piece_entry) (block : Nat)
    (c : cache_counters) (b : cached_block_entry)
    (hget : pe.blocks.get? block = Option.some b) (hbuf : b.buf = true)
    (hne : b.refcount ≠ cached_block_entry.max_refcount) :
    (inc_block_refcount pe block c).2.1.blocks.get? block =
      Option.some { b with refcount := b.refcount + 1 } := by
  rw [inc_success pe block c b hget hbuf hne]
  exact get?_set_self pe.blocks block b _ hget

lemma dec_raw_undoes_inc (pe : cached_piece_entry) (block : Nat)
    (c : cache_counters) (b : cached_block_entry)
    (hget : pe.blocks.get? block = Option.some b) (hbuf : b.buf = true)
    (hne : b.refcount ≠ cached_block_entry.max_refcount) :
    dec_ref_raw (inc_block_refcount pe block c).2.1 block
      (inc_block_refcount pe block c).2.2 = (pe, c) := by
  have hget2 : (pe.blocks.set block { b with refcount := b.refcount + 1 }).get?
      block = Option.some { b with refcount := b.refcount + 1 } :=
    get?_set_self pe.blocks block b _ hget
  rw [inc_success pe block c b hget hbuf hne]
  rw [dec_raw_pos _ block _ _ hget2 (by simp)]
  have hblocks :
      (pe.blocks.set block { b with refcount := b.refcount + 1 }).set
        block { b with refcount := b.refcount + 1 - 1 } = pe.blocks := by
    rw [List.set_set]
    have hb : { b with refcount := b.refcount + 1 - 1 } = b := by
      cases b
      simp
    rw [hb]
    exact set_of_get?_self pe.blocks block b hget
  simp only [hblocks]
  by_cases h0 : b.refcount = 0 <;> simp [h0]

/-- C5: on a block with a present buffer and refcount below the maximum,
`inc_block_refcount` followed by the matching `dec_block_refcount` (no
intervening operation, piece not marked for eviction) is the identity on
the whole piece entry and all cache-wide counters. -/
theorem inc_dec_refcount_identity (pe : cached_piece_entry) (block : Nat)
    (c : cache_counters) (b : cached_block_entry)
    (hget : pe.blocks.get? block = Option.some b)
    (hbuf : b.buf = true)
    (hlt : b.refcount < cached_block_entry.max_refcount)
    (hmark : pe.marked_for_eviction = false) :
    dec_block_refcount (inc_block_refcount pe block c).2.1 block
        (inc_block_refcount pe block c).2.2 = (Option.some pe, c) := by
  have hne : b.refcount ≠ cached_block_entry.max_refcount :=
    Nat.ne_of_lt hlt
  have hget2 := get?_inc_self pe block c b hget hbuf hne
  have hraw := dec_raw_undoes_inc pe block c b hget hbuf hne
  unfold dec_block_refcount
  rw [hget2]
  simp only [hraw]
  simp [hmark]

lemma get?_set_other {α : Type _} (l : List α) (i j : Nat) (b : α)
    (h : i ≠ j) : (l.set i b).get? j = l.get? j :=
  List.get?_set_ne b l h

lemma block_readable_inc (pe : cached_piece_entry) (block : Nat)
    (c : cache_counters) (j : Nat) :
    block_readable (inc_block_refcount pe block c).2.1 j =
      block_readable pe j := by
  cases hget : pe.blocks.get? block with
  | none => rw [inc_absent pe block c hget]
  | some b =>
    cases hbuf : b.buf with
    | false => rw [inc_no_buf pe block c b hget hbuf]
    | true =>
      by_cases hmax : b.refcount = cached_block_entry.max_refcount
      · rw [inc_saturated pe block c b hget hbuf hmax]
      · rw [inc_success pe block c b hget hbuf hmax]
        by_cases hij : block = j
        · subst hij
          unfold block_readable
          simp only
          rw [get?_set_self pe.blocks block b _ hget, hget]
        · unfold block_readable
          simp only
          rw [get?_set_other pe.blocks block j _ hij]

lemma roll_back_cons (pe : cached_piece_entry) (c : cache_counters)
    (i : Nat) (taken : List Nat) :
    roll_back pe c (i :: taken) =
      roll_back (dec_ref_raw pe i c).1 (dec_ref_raw pe i c).2 taken := by
  unfold roll_back
  rw [List.foldl_cons]

lemma copy_go_step (pe : cached_piece_entry) (c : cache_counters)
    (i r : Nat) (taken : List Nat) (b : cached_block_entry)
    (hget : pe.blocks.get? i = Option.some b)
    (hbuf : b.buf = true) (hpend : b.pending = false)
    (hmax : b.refcount ≠ cached_block_entry.max_refcount) :
    copy_from_piece_go pe c i (r + 1) taken =
      copy_from_piece_go (inc_block_refcount pe i c).2.1
        (inc_block_refcount pe i c).2.2 (i + 1) r (i :: taken) := by
  have hsucc := inc_success pe i c b hget hbuf hmax
  simp [copy_from_piece_go, ← List.get?_eq_getElem?, hget, hbuf, hpend, hsucc]

lemma copy_go_miss (pe0 : cached_piece_entry) (c0 : cache_counters) :
    ∀ (r i : Nat) (pe : cached_piece_entry) (c : cache_counters)
      (taken : List Nat),
      roll_back pe c taken = (pe0, c0) →
      (∀ j, block_readable pe j = block_readable pe0 j) →
      (∃ k, k < r ∧ block_readable pe0 (i + k) = false) →
      copy_from_piece_go pe c i r taken = (-1, pe0, c0) := by
  intro r
  induction r with
  | zero =>
    intro i pe c taken _ _ hex
    obtain ⟨k, hk, _⟩ := hex
    omega
  | succ r ih =>
    intro i pe c taken hroll hsame hex
    cases hget : pe.blocks.get? i with
    | none =>
      simp [copy_from_piece_go, ← List.get?_eq_getElem?, hget, hroll]
    | some b =>
      by_cases hok : b.buf = true ∧ b.pending = false
      · have hread : block_readable pe i = true := by
          unfold block_readable
          rw [hget]
          simp [hok.1, hok.2]
        by_cases hmax : b.refcount = cached_block_entry.max_refcount
        · simp [copy_from_piece_go, ← List.get?_eq_getElem?, hget, hok.1, hok.2,
            inc_saturated pe i c b hget hok.1 hmax, hroll]
        · have hsucc := inc_success pe i c b hget hok.1 hmax
          have hrec : copy_from_piece_go (inc_block_refcount pe i c).2.1
              (inc_block_refcount pe i c).2.2 (i + 1) r (i :: taken) =
              (-1, pe0, c0) := by
            apply ih
            · rw [roll_back_cons, dec_raw_undoes_inc pe i c b hget hok.1 hmax]
              exact hroll
            · intro j
              rw [block_readable_inc pe i c j]
              exact hsame j
            · obtain ⟨k, hk, hfail⟩ := hex
              have hk0 : k ≠ 0 := by
                intro h0
                rw [h0, Nat.add_zero] at hfail
                rw [hsame i, hfail] at hread
                cases hread
              obtain ⟨k2, rfl⟩ := Nat.exists_eq_succ_of_ne_zero hk0
              refine ⟨k2, by omega, ?_⟩
              rw [show i + 1 + k2 = i + (k2 + 1) by omega]
              exact hfail
          rw [copy_go_step pe c i r taken b hget hok.1 hok.2 hmax]
          exact hrec
      · simp [copy_from_piece_go, ← List.get?_eq_getElem?, hget, hok, hroll]

/-- C3: when the covered block range contains a block with an absent
buffer or the `pending` bit set, `try_read` returns `MISS` (−1) and the
cache state is unchanged on that return: every refcount incremented
during the attempt has been decremented again (the rollback restores the
piece entry and the counters exactly). -/
theorem try_read_miss_rollback (pe : cached_piece_entry)
    (c : cache_counters) (bstart len : Nat)
    (h : ∃ k, k < len ∧ block_readable pe (bstart + k) = false) :
    try_read pe c bstart len = (-1, pe, c) := by
  have hgo : copy_from_piece_go pe c bstart len [] = (-1, pe, c) := by
    apply copy_go_miss pe c len bstart pe c []
    · rfl
    · intro j
      rfl
    · exact h
  unfold try_read copy_from_piece
  rw [hgo]
  simp

/-- Witness for C5: the inc-then-dec identity at a concrete piece, block
and counter state. -/
theorem inc_dec_refcount_identity_check :
    dec_block_refcount (inc_block_refcount wpiece 0 wcounters).2.1 0
        (inc_block_refcount wpiece 0 wcounters).2.2 =
      (Option.some wpiece, wcounters) :=
  inc_dec_refcount_identity wpiece 0 wcounters wblock rfl rfl (by decide) rfl

/-- Witness for C7: at a concrete block with a present buffer below the
maximum refcount, the increment succeeds. -/
theorem inc_block_refcount_spec_check :
    (inc_block_refcount wpiece 0 wcounters).1 = true :=
  ((inc_block_refcount_spec wpiece 0 wcounters wblock rfl).2.2 rfl
    (by decide)).1

/-- Witness for C3: a two-block read over a pending second block misses
and returns the concrete state untouched. -/
theorem try_read_miss_rollback_check :
    try_read wpiece wcounters 0 2 = (-1, wpiece, wcounters) :=
  try_read_miss_rollback wpiece wcounters 0 2 ⟨1, by decide, by decide⟩

lemma flush_one_dirty (pe : cached_piece_entry) (c : cache_counters)
    (j : Nat) (b : cached_block_entry)
    (hget : pe.blocks.get? j = Option.some b)
    (hd : b.dirty = true) (hp : b.pending = false) :
    flush_one pe c j =
      ({ pe with
         blocks := pe.blocks.set j { b with dirty := false }
         num_dirty := pe.num_dirty - 1 },
       { c with
         write_cache_size := c.write_cache_size - 1
         read_cache_size := c.read_cache_size + 1 }) := by
  unfold flush_one
  rw [hget]
  simp [hd, hp]

lemma flush_fold_cons (pe : cached_piece_entry) (c : cache_counters)
    (j : Nat) (rest : List Nat) :
    flush_fold pe c (j :: rest) =
      flush_fold (flush_one pe c j).1 (flush_one pe c j).2 rest := by
  unfold flush_fold
  rw [List.foldl_cons]

lemma flush_fold_spec :
    ∀ (flushed : List Nat) (pe : cached_piece_entry) (c : cache_counters),
      flushed.Nodup → flush_pre pe flushed →
      flushed.length ≤ pe.num_dirty →
      flushed.length ≤ c.write_cache_size →
      (flush_fold pe c flushed).1.num_dirty =
          pe.num_dirty - flushed.length ∧
        (flush_fold pe c flushed).2.write_cache_size =
          c.write_cache_size - flushed.length ∧
        (flush_fold pe c flushed).2.read_cache_size =
          c.read_cache_size + flushed.length ∧
        (flush_fold pe c flushed).2.pinned_blocks = c.pinned_blocks ∧
        (flush_fold pe c flushed).2.send_buffer_blocks =
          c.send_buffer_blocks ∧
        same_piece_meta (flush_fold pe c flushed).1 pe ∧
        (∀ j, j ∉ flushed →
          (flush_fold pe c flushed).1.blocks.get? j = pe.blocks.get? j) ∧
        (∀ j ∈ flushed, ∃ b, pe.blocks.get? j = Option.some b ∧
          (flush_fold pe c flushed).1.blocks.get? j =
            Option.some { b with dirty := false }) := by
  intro flushed
  induction flushed with
  | nil =>
    intro pe c _ _ _ _
    refine ⟨by simp [flush_fold], by simp [flush_fold], by simp [flush_fold],
      rfl, rfl, rfl, fun j _ => rfl, fun j hj => absurd hj (by simp)⟩
  | cons j rest ih =>
    intro pe c hnodup hpre hnd hwr
    obtain ⟨b, hget, hd, hp⟩ := hpre j (List.mem_cons_self j rest)
    rw [List.nodup_cons] at hnodup
    have hone := flush_one_dirty pe c j b hget hd hp
    have hlen : (j :: rest).length = rest.length + 1 := rfl
    rw [flush_fold_cons, hone]
    have hpre2 : flush_pre
        ({ pe with
           blocks := pe.blocks.set j { b with dirty := false }
           num_dirty := pe.num_dirty - 1 }) rest := by
      intro j2 hj2
      obtain ⟨b2, hget2, hd2, hp2⟩ := hpre j2 (List.mem_cons_of_mem j hj2)
      have hne : j ≠ j2 := fun he => hnodup.1 (he ▸ hj2)
      exact ⟨b2, (get?_set_other pe.blocks j j2 _ hne).trans hget2, hd2, hp2⟩
    have hd2 : rest.length ≤
        ({ pe with
           blocks := pe.blocks.set j { b with dirty := false }
           num_dirty := pe.num_dirty - 1 } : cached_piece_entry).num_dirty := by
      show rest.length ≤ pe.num_dirty - 1
      omega
    have hw2 : rest.length ≤
        ({ c with
           write_cache_size := c.write_cache_size - 1
           read_cache_size := c.read_cache_size + 1 } :
            cache_counters).write_cache_size := by
      show rest.length ≤ c.write_cache_size - 1
      omega
    have hih := ih _ _ hnodup.2 hpre2 hd2 hw2
    obtain ⟨i1, i2, i3, i4, i5, i6, i7, i8⟩ := hih
    refine ⟨?_, ?_, ?_, i4, i5, i6, ?_, ?_⟩
    · rw [i1]
      show pe.num_dirty - 1 - rest.length = pe.num_dirty - (rest.length + 1)
      omega
    · rw [i2]
      show c.write_cache_size - 1 - rest.length =
        c.write_cache_size - (rest.length + 1)
      omega
    · rw [i3]
      show c.read_cache_size + 1 + rest.length =
        c.read_cache_size + (rest.length + 1)
      omega
    · intro j2 hj2
      have hjne : j2 ≠ j := fun he => hj2 (he ▸ List.mem_cons_self j rest)
      have hrest : j2 ∉ rest := fun hr => hj2 (List.mem_cons_of_mem j hr)
      rw [i7 j2 hrest]
      exact get?_set_other pe.blocks j j2 _ (fun he => hjne he.symm)
    · intro j2 hj2
      rcases List.mem_cons.mp hj2 with he | hr
      · subst he
        refine ⟨b, hget, ?_⟩
        rw [i7 j2 hnodup.1]
        exact get?_set_self pe.blocks j2 b _ hget
      · obtain ⟨b2, hget2, hres⟩ := i8 j2 hr
        have hne : j ≠ j2 := fun he => hnodup.1 (he ▸ hr)
        have hget2b : (pe.blocks.set j { b with dirty := false }).get? j2 =
            Option.some b2 := hget2
        rw [get?_set_other pe.blocks j j2 _ hne] at hget2b
        exact ⟨b2, hget2b, hres⟩


lemma piece_meta_fields (p1 p2 : cached_piece_entry)
    (h : same_piece_meta p1 p2) :
    p1.num_blocks = p2.num_blocks ∧ p1.need_readback = p2.need_readback ∧
    p1.marked_for_eviction = p2.marked_for_eviction ∧
    p1.marked_for_deletion = p2.marked_for_deletion ∧
    p1.cache_state = p2.cache_state ∧
    p1.ok_to_evict true = p2.ok_to_evict true := by
  unfold same_piece_meta piece_meta at h
  simp only [Prod.mk.injEq] at h
  obtain ⟨h1, h2, h3, h4, h5, h6, h7, h8, h9, h10, h11, h12, h13, h14, h15,
    h16, h17⟩ := h
  refine ⟨h3, h8, h13, h7, h9, ?_⟩
  unfold cached_piece_entry.ok_to_evict
  rw [h2, h5, h10, h12, h15, h16]

lemma ghost_list_of_cases (s : cache_state_t) :
    ghost_list_of s = cache_state_t.read_lru1_ghost ∨
      ghost_list_of s = cache_state_t.read_lru2_ghost := by
  cases s <;> simp [ghost_list_of]

/-- C4 (amended): with every listed block dirty and not pending (distinct
indices, the assertion of §4.4), `blocks_flushed` clears `dirty` on each
flushed block, decreases `num_dirty` and `write_cache_size` by `n` and
increases `read_cache_size` by `n`; when `num_dirty` reaches 0 with
`need_readback` or `marked_for_eviction` set it releases all buffers and
demotes the piece to a ghost list (erasing it when it was marked for
deletion) exactly when the piece is free of pins (`refcount == 0`,
`piece_refcount == 0`, not hashing, no queued or outstanding reads),
deferring removal — buffers and list kept — while it is still pinned; when
`num_dirty` reaches 0 with neither flag set it relinks the piece from
`write_lru` into a read list; it returns `true` iff the piece entry was
freed. -/
theorem blocks_flushed_spec (pe : cached_piece_entry) (flushed : List Nat)
    (c : cache_counters)
    (hnodup : flushed.Nodup)
    (hpre : flush_pre pe flushed)
    (hnd : flushed.length ≤ pe.num_dirty)
    (hwr : flushed.length ≤ c.write_cache_size) :
    ((blocks_flushed pe flushed c).2.2.write_cache_size =
        c.write_cache_size - flushed.length) ∧
    ((blocks_flushed pe flushed c).1 = true ↔
        (blocks_flushed pe flushed c).2.1 = Option.none) ∧
    (pe.num_dirty ≠ flushed.length →
      ∃ pe2, (blocks_flushed pe flushed c).1 = false ∧
        (blocks_flushed pe flushed c).2.1 = Option.some pe2 ∧
        pe2.num_dirty = pe.num_dirty - flushed.length ∧
        (∀ j ∈ flushed, ∃ b, pe.blocks.get? j = Option.some b ∧
          pe2.blocks.get? j = Option.some { b with dirty := false }) ∧
        (blocks_flushed pe flushed c).2.2.read_cache_size =
          c.read_cache_size + flushed.length) ∧
    (pe.num_dirty = flushed.length →
      (pe.need_readback = true ∨ pe.marked_for_eviction = true) →
      pe.ok_to_evict true = true →
      ((blocks_flushed pe flushed c).2.2.read_cache_size =
          c.read_cache_size + flushed.length - pe.num_blocks) ∧
      (pe.marked_for_deletion = true →
        (blocks_flushed pe flushed c).1 = true ∧
        (blocks_flushed pe flushed c).2.1 = Option.none) ∧
      (pe.marked_for_deletion = false →
        ∃ pe2, (blocks_flushed pe flushed c).1 = false ∧
          (blocks_flushed pe flushed c).2.1 = Option.some pe2 ∧
          pe2.blocks = [] ∧ pe2.num_blocks = 0 ∧
          (pe2.cache_state = cache_state_t.read_lru1_ghost ∨
           pe2.cache_state = cache_state_t.read_lru2_ghost))) ∧
    (pe.num_dirty = flushed.length →
      (pe.need_readback = true ∨ pe.marked_for_eviction = true) →
      pe.ok_to_evict true = false →
      ∃ pe2, (blocks_flushed pe flushed c).1 = false ∧
        (blocks_flushed pe flushed c).2.1 = Option.some pe2 ∧
        pe2.num_dirty = 0 ∧
        pe2.num_blocks = pe.num_blocks ∧
        pe2.cache_state = pe.cache_state ∧
        (∀ j ∈ flushed, ∃ b, pe.blocks.get? j = Option.some b ∧
          pe2.blocks.get? j = Option.some { b with dirty := false }) ∧
        (blocks_flushed pe flushed c).2.2.read_cache_size =
          c.read_cache_size + flushed.length) ∧
    (pe.num_dirty = flushed.length →
      pe.need_readback = false → pe.marked_for_eviction = false →
      ∃ pe2, (blocks_flushed pe flushed c).1 = false ∧
        (blocks_flushed pe flushed c).2.1 = Option.some pe2 ∧
        pe2.num_dirty = 0 ∧
        (pe2.cache_state = cache_state_t.read_lru1 ∨
         pe2.cache_state = cache_state_t.read_lru2) ∧
        (∀ j ∈ flushed, ∃ b, pe.blocks.get? j = Option.some b ∧
          pe2.blocks.get? j = Option.some { b with dirty := false }) ∧
        (blocks_flushed pe flushed c).2.2.read_cache_size =
          c.read_cache_size + flushed.length) := by
  obtain ⟨i1, i2, i3, i4, i5, i6, i7, i8⟩ :=
    flush_fold_spec flushed pe c hnodup hpre hnd hwr
  obtain ⟨m1, m2, m3, m4, m5, m6⟩ := piece_meta_fields _ _ i6
  by_cases h0 : pe.num_dirty = flushed.length
  · -- the piece becomes fully clean
    have hz : (flush_fold pe c flushed).1.num_dirty = 0 := by
      rw [i1]
      omega
    by_cases hflag : pe.need_readback = true ∨ pe.marked_for_eviction = true
    · have hflag2 : (flush_fold pe c flushed).1.need_readback = true ∨
          (flush_fold pe c flushed).1.marked_for_eviction = true := by
        rw [m2, m3]
        exact hflag
      by_cases hev : pe.ok_to_evict true = true
      · have hev2 : (flush_fold pe c flushed).1.ok_to_evict true = true := by
          rw [m6]
          exact hev
        by_cases hdel : pe.marked_for_deletion = true
        · have hdel2 : (flush_fold pe c flushed).1.marked_for_deletion =
              true := by
            rw [m4]
            exact hdel
          have hred : blocks_flushed pe flushed c =
              (true, Option.none,
               release_counters (flush_fold pe c flushed).1
                 (flush_fold pe c flushed).2) := by
            unfold blocks_flushed
            simp [hz, hflag2, hev2, hdel2]
          rw [hred]
          refine ⟨?_, by simp, fun hne => absurd h0 hne,
            fun _ _ _ => ⟨?_, ?_, ?_⟩,
            fun _ _ hevF => absurd (hev.symm.trans hevF) (by decide),
            fun _ hnr hnm => ?_⟩
          · show (flush_fold pe c flushed).2.write_cache_size -
              (flush_fold pe c flushed).1.num_dirty =
              c.write_cache_size - flushed.length
            rw [hz, i2]
            omega
          · show (flush_fold pe c flushed).2.read_cache_size -
              ((flush_fold pe c flushed).1.num_blocks -
                (flush_fold pe c flushed).1.num_dirty) =
              c.read_cache_size + flushed.length - pe.num_blocks
            rw [hz, i3, m1]
            omega
          · exact fun _ => ⟨rfl, rfl⟩
          · intro hfalse
            rw [hdel] at hfalse
            cases hfalse
          · rcases hflag with hh | hh
            · rw [hnr] at hh
              cases hh
            · rw [hnm] at hh
              cases hh
        · have hdel2 : (flush_fold pe c flushed).1.marked_for_deletion =
              false := by
            rw [m4]
            exact eq_false_of_ne_true hdel
          have hred : blocks_flushed pe flushed c =
              (false,
               Option.some (demote_to_ghost (flush_fold pe c flushed).1),
               release_counters (flush_fold pe c flushed).1
                 (flush_fold pe c flushed).2) := by
            unfold blocks_flushed
            simp [hz, hflag2, hev2, hdel2]
          rw [hred]
          refine ⟨?_, by simp, fun hne => absurd h0 hne,
            fun _ _ _ => ⟨?_, ?_, ?_⟩,
            fun _ _ hevF => absurd (hev.symm.trans hevF) (by decide),
            fun _ hnr hnm => ?_⟩
          · show (flush_fold pe c flushed).2.write_cache_size -
              (flush_fold pe c flushed).1.num_dirty =
              c.write_cache_size - flushed.length
            rw [hz, i2]
            omega
          · show (flush_fold pe c flushed).2.read_cache_size -
              ((flush_fold pe c flushed).1.num_blocks -
                (flush_fold pe c flushed).1.num_dirty) =
              c.read_cache_size + flushed.length - pe.num_blocks
            rw [hz, i3, m1]
            omega
          · intro hfalse
            exact absurd hfalse hdel
          · intro _
            refine ⟨demote_to_ghost (flush_fold pe c flushed).1, rfl, rfl,
              rfl, rfl, ghost_list_of_cases _⟩
          · rcases hflag with hh | hh
            · rw [hnr] at hh
              cases hh
            · rw [hnm] at hh
              cases hh
      · -- the piece is still pinned: removal is deferred
        have hevf : pe.ok_to_evict true = false := eq_false_of_ne_true hev
        have hev2f : (flush_fold pe c flushed).1.ok_to_evict true =
            false := by
          rw [m6]
          exact hevf
        have hred : blocks_flushed pe flushed c =
            (false, Option.some (flush_fold pe c flushed).1,
             (flush_fold pe c flushed).2) := by
          unfold blocks_flushed
          simp [hz, hflag2, hev2f]
        rw [hred]
        refine ⟨by rw [i2], by simp, fun hne => absurd h0 hne,
          fun _ _ hevT => absurd hevT hev, fun _ _ _ => ?_,
          fun _ hnr hnm => ?_⟩
        · exact ⟨(flush_fold pe c flushed).1, rfl, rfl, hz, m1, m5, i8, i3⟩
        · rcases hflag with hh | hh
          · rw [hnr] at hh
            cases hh
          · rw [hnm] at hh
            cases hh
    · have hflag2 : ¬((flush_fold pe c flushed).1.need_readback = true ∨
          (flush_fold pe c flushed).1.marked_for_eviction = true) := by
        rw [m2, m3]
        exact hflag
      have hred : blocks_flushed pe flushed c =
          (false,
           Option.some (relink_after_flush (flush_fold pe c flushed).1),
           (flush_fold pe c flushed).2) := by
        unfold blocks_flushed
        simp [hz, hflag2]
      rw [hred]
      refine ⟨by rw [i2], by simp, fun hne => absurd h0 hne,
        fun _ hf _ => absurd hf hflag, fun _ hf _ => absurd hf hflag,
        fun _ _ _ => ?_⟩
      refine ⟨relink_after_flush (flush_fold pe c flushed).1, rfl, rfl, hz,
        ?_, ?_, i3⟩
      · unfold relink_after_flush
        by_cases hany : (flush_fold pe c flushed).1.blocks.any
            (fun b => b.cache_hit) = true
        · right
          simp [hany]
        · left
          simp [hany]
      · intro j hj
        obtain ⟨b, hb1, hb2⟩ := i8 j hj
        exact ⟨b, hb1, hb2⟩
  · -- dirty blocks remain
    have hz : (flush_fold pe c flushed).1.num_dirty ≠ 0 := by
      rw [i1]
      omega
    have hred : blocks_flushed pe flushed c =
        (false, Option.some (flush_fold pe c flushed).1,
         (flush_fold pe c flushed).2) := by
      unfold blocks_flushed
      simp [hz]
    rw [hred]
    refine ⟨by rw [i2], by simp, fun _ => ?_, fun he => absurd he h0,
      fun he => absurd he h0, fun he => absurd he h0⟩
    exact ⟨(flush_fold pe c flushed).1, rfl, rfl, i1, i8, i3⟩


/-- Witness for C4: flushing both dirty blocks of a concrete two-block
write piece drains `write_cache_size`. -/
theorem blocks_flushed_spec_check :
    (blocks_flushed wpiece_write [0, 1] wcounters_write).2.2.write_cache_size
      = 0 :=
  (blocks_flushed_spec wpiece_write [0, 1] wcounters_write (by decide)
    (by
      intro j hj
      rcases List.mem_cons.mp hj with rfl | hj2
      · exact ⟨wdirty, rfl, rfl, rfl⟩
      · rcases List.mem_cons.mp hj2 with rfl | hj3
        · exact ⟨wdirty, rfl, rfl, rfl⟩
        · cases hj3)
    (by decide) (by decide)).1


/-- Counterexample for the unconditional reading of C4: `wpiece_pinned` is
a fully dirty two-block piece, every listed block dirty and not pending,
with `marked_for_eviction` set — but its first block is still referenced
(refcount 1), so after `blocks_flushed` brings `num_dirty` to 0 the piece
is NOT demoted to a ghost list: it keeps both buffers and stays in
`write_lru`, and the entry is not freed (removal is deferred until the
pin is released). -/
theorem blocks_flushed_pinned_not_demoted :
    (∀ b ∈ wpiece_pinned.blocks, b.dirty = true ∧ b.pending = false) ∧
    wpiece_pinned.marked_for_eviction = true ∧
    wpiece_pinned.num_dirty = 2 ∧
    (blocks_flushed wpiece_pinned [0, 1] wcounters_pinned).1 = false ∧
    ((blocks_flushed wpiece_pinned [0, 1] wcounters_pinned).2.1.getD
        wpiece_pinned).num_dirty = 0 ∧
    ((blocks_flushed wpiece_pinned [0, 1] wcounters_pinned).2.1.getD
        wpiece_pinned).cache_state = cache_state_t.write_lru ∧
    ((blocks_flushed wpiece_pinned [0, 1] wcounters_pinned).2.1.getD
        wpiece_pinned).num_blocks = 2 := by
  decide


lemma evict_candidate_true (ignore : Option Nat) (pe : cached_piece_entry)
    (h : evict_candidate ignore pe = true) :
    ignore ≠ Option.some pe.piece ∧ pe.ok_to_evict false = true := by
  unfold evict_candidate at h
  rw [Bool.and_eq_true] at h
  refine ⟨?_, h.2⟩
  intro he
  rw [he] at h
  simp at h

lemma go_zero_num (pe : cached_piece_entry)
    (rest : List cached_piece_entry) (ignore : Option Nat)
    (c : cache_counters) :
    try_evict_blocks_go (pe :: rest) 0 ignore c = (0, pe :: rest, c) := by
  simp [try_evict_blocks_go]

lemma go_evict (pe : cached_piece_entry) (rest : List cached_piece_entry)
    (num : Nat) (ignore : Option Nat) (c : cache_counters)
    (h : num ≠ 0) (hc : evict_candidate ignore pe = true) :
    try_evict_blocks_go (pe :: rest) num ignore c =
      ((try_evict_blocks_go rest (num - pe.num_blocks) ignore
          (release_counters pe c)).1,
       demote_to_ghost pe ::
         (try_evict_blocks_go rest (num - pe.num_blocks) ignore
           (release_counters pe c)).2.1,
       (try_evict_blocks_go rest (num - pe.num_blocks) ignore
         (release_counters pe c)).2.2) := by
  simp [try_evict_blocks_go, h, hc]

lemma go_skip (pe : cached_piece_entry) (rest : List cached_piece_entry)
    (num : Nat) (ignore : Option Nat) (c : cache_counters)
    (h : num ≠ 0) (hc : evict_candidate ignore pe = false) :
    try_evict_blocks_go (pe :: rest) num ignore c =
      ((try_evict_blocks_go rest num ignore c).1,
       pe :: (try_evict_blocks_go rest num ignore c).2.1,
       (try_evict_blocks_go rest num ignore c).2.2) := by
  simp [try_evict_blocks_go, h, hc]

lemma try_evict_total_le (ignore : Option Nat) :
    ∀ (pieces : List cached_piece_entry) (num : Nat) (c : cache_counters),
      total_cached_blocks
          (try_evict_blocks_go pieces num ignore c).2.1 ≤
        total_cached_blocks pieces := by
  intro pieces
  induction pieces with
  | nil =>
    intro num c
    exact Nat.le_refl _
  | cons pe rest ih =>
    intro num c
    by_cases h0 : num = 0
    · subst h0
      rw [go_zero_num]
    · by_cases hc : evict_candidate ignore pe = true
      · rw [go_evict pe rest num ignore c h0 hc]
        have := ih (num - pe.num_blocks) (release_counters pe c)
        simp only [total_cached_blocks, List.map_cons, List.sum_cons]
        simp only [total_cached_blocks] at this
        have hdg : (demote_to_ghost pe).num_blocks = 0 := rfl
        rw [hdg]
        omega
      · rw [go_skip pe rest num ignore c h0
          (Bool.not_eq_true _ ▸ (by simpa using hc))]
        have := ih num c
        simp only [total_cached_blocks, List.map_cons, List.sum_cons]
        simp only [total_cached_blocks] at this
        omega

/-- C8: `try_evict_blocks(num, ignore)` returns the shortfall — the part
of the `num` requested buffers it could not free, 0 when at least `num`
were freed — and it leaves every piece equal to `ignore` or failing the
evictability predicate P3 exactly in place, buffers untouched. -/
theorem try_evict_blocks_shortfall (pieces : List cached_piece_entry)
    (num : Nat) (ignore : Option Nat) (c : cache_counters) :
    ((try_evict_blocks pieces num ignore c).1 =
      num - (total_cached_blocks pieces -
        total_cached_blocks (try_evict_blocks pieces num ignore c).2.1)) ∧
    (∀ i pe, pieces.get? i = Option.some pe →
      (ignore = Option.some pe.piece ∨ pe.ok_to_evict false = false) →
      (try_evict_blocks pieces num ignore c).2.1.get? i =
        Option.some pe) := by
  unfold try_evict_blocks
  induction pieces generalizing num c with
  | nil =>
    refine ⟨by simp [try_evict_blocks_go], ?_⟩
    intro i pe hget
    simp at hget
  | cons pe rest ih =>
    by_cases h0 : num = 0
    · subst h0
      rw [go_zero_num]
      refine ⟨by simp, ?_⟩
      intro i pe2 hget _
      exact hget
    · by_cases hc : evict_candidate ignore pe = true
      · rw [go_evict pe rest num ignore c h0 hc]
        have hle := try_evict_total_le ignore rest (num - pe.num_blocks)
          (release_counters pe c)
        obtain ⟨ih1, ih2⟩ := ih (num - pe.num_blocks) (release_counters pe c)
        refine ⟨?_, ?_⟩
        · simp only [total_cached_blocks, List.map_cons, List.sum_cons]
          have hdg : (demote_to_ghost pe).num_blocks = 0 := rfl
          rw [hdg]
          simp only [total_cached_blocks] at ih1 hle
          omega
        · intro i pe2 hget hskip
          cases i with
          | zero =>
            rw [List.get?_cons_zero, Option.some.injEq] at hget
            subst hget
            obtain ⟨hni, hok⟩ := evict_candidate_true ignore pe hc
            rcases hskip with hs | hs
            · exact absurd hs hni
            · rw [hok] at hs
              cases hs
          | succ i =>
            rw [List.get?_cons_succ] at hget
            rw [List.get?_cons_succ]
            exact ih2 i pe2 hget hskip
      · rw [go_skip pe rest num ignore c h0
          (Bool.not_eq_true _ ▸ (by simpa using hc))]
        have hle := try_evict_total_le ignore rest num c
        obtain ⟨ih1, ih2⟩ := ih num c
        refine ⟨?_, ?_⟩
        · simp only [total_cached_blocks, List.map_cons, List.sum_cons]
          simp only [total_cached_blocks] at ih1 hle
          omega
        · intro i pe2 hget hskip
          cases i with
          | zero =>
            rw [List.get?_cons_zero, Option.some.injEq] at hget
            subst hget
            rfl
          | succ i =>
            rw [List.get?_cons_succ] at hget
            rw [List.get?_cons_succ]
            exact ih2 i pe2 hget hskip


/-- C6: a hit on a piece in `read_lru1_ghost` re-admits it at the MRU end
(tail) of `read_lru2`, sets `last_cache_op = ghost_hit_lru1`, and
subsequent evictions then prefer victims from list 2. -/
theorem ghost_hit_lru1_readmission (pe : cached_piece_entry)
    (pid block : Nat) (s : arc_lists)
    (h : pe.cache_state = cache_state_t.read_lru1_ghost) :
    (cache_hit pe pid block false s).1.cache_state =
        cache_state_t.read_lru2 ∧
      (cache_hit pe pid block false s).2.lru2 =
        remove_id s.lru2 pid ++ [pid] ∧
      (cache_hit pe pid block false s).2.lru2.getLast? = Option.some pid ∧
      (cache_hit pe pid block false s).2.last_cache_op =
        cache_op_t.ghost_hit_lru1 ∧
      (∀ n1 n2 : Nat, evict_preference
          (cache_hit pe pid block false s).2.last_cache_op n1 n2 =
        cache_state_t.read_lru2) := by
  have hred : cache_hit pe pid block false s =
      ({ mark_hit_block pe block with
         cache_state := cache_state_t.read_lru2 },
       { s with
         lru1_ghost := remove_id s.lru1_ghost pid
         lru2 := remove_id s.lru2 pid ++ [pid]
         last_cache_op := cache_op_t.ghost_hit_lru1 }) := by
    unfold cache_hit
    rw [h]
    simp
  rw [hred]
  refine ⟨rfl, rfl, ?_, rfl, fun n1 n2 => rfl⟩
  show (remove_id s.lru2 pid ++ [pid]).getLast? = Option.some pid
  rw [List.getLast?_concat]

/-- Witness for C6: the concrete ghost piece is re-admitted and the
ARC op recorded. -/
theorem ghost_hit_lru1_readmission_check :
    (cache_hit wpiece_ghost 11 0 false warc).2.last_cache_op =
      cache_op_t.ghost_hit_lru1 :=
  (ghost_hit_lru1_readmission wpiece_ghost 11 0 warc rfl).2.2.2.1


lemma foldl_preserve {α σ : Type _} (P : σ → Prop) (f : σ → α → σ)
    (h : ∀ s a, P s → P (f s a)) :
    ∀ (l : List α) (s : σ), P s → P (l.foldl f s) := by
  intro l
  induction l with
  | nil =>
    intro s hs
    exact hs
  | cons x xs ih =>
    intro s hs
    exact ih _ (h s x hs)

lemma countP_set_same {α : Type _} (p : α → Bool) (l : List α) (i : Nat)
    (a b : α) (h : l.get? i = Option.some a) (hb : p b = p a) :
    (l.set i b).countP p = l.countP p := by
  have hadd := countP_set_add p l i a h b
  rw [hb] at hadd
  omega

lemma forall_mem_set {α : Type _} (P : α → Prop) (l : List α) (i : Nat)
    (b : α) (h : ∀ x ∈ l, P x) (hb : P b) :
    ∀ x ∈ l.set i b, P x := fun x hx =>
  (List.mem_or_eq_of_mem_set hx).elim (h x) (fun he => he ▸ hb)

lemma inv_inc (pe : cached_piece_entry) (block : Nat) (c : cache_counters)
    (hinv : piece_inv pe) :
    piece_inv (inc_block_refcount pe block c).2.1 := by
  cases hget : pe.blocks.get? block with
  | none =>
    rw [inc_absent pe block c hget]
    exact hinv
  | some b =>
    cases hbuf : b.buf with
    | false =>
      rw [inc_no_buf pe block c b hget hbuf]
      exact hinv
    | true =>
      by_cases hmax : b.refcount = cached_block_entry.max_refcount
      · rw [inc_saturated pe block c b hget hbuf hmax]
        exact hinv
      · rw [inc_success pe block c b hget hbuf hmax]
        obtain ⟨v1, v2, v3, v4, ⟨v5a, v5b⟩, v6, v7⟩ := hinv
        have hbm : b.refcount ≤ cached_block_entry.max_refcount :=
          v7 b (List.get?_mem hget)
        refine ⟨v1, ?_, ?_, ?_, ⟨?_, ?_⟩, v6, ?_⟩
        · show (pe.blocks.set block
            { b with refcount := b.refcount + 1 }).length ≤
              pe.blocks_in_piece
          rw [List.length_set]
          exact v2
        · show pe.num_blocks = (pe.blocks.set block
            { b with refcount := b.refcount + 1 }).countP (fun x => x.buf)
          rw [countP_set_same (fun x => x.buf) pe.blocks block b
            { b with refcount := b.refcount + 1 } hget (by rfl)]
          exact v3
        · show pe.num_dirty = (pe.blocks.set block
            { b with refcount := b.refcount + 1 }).countP (fun x => x.dirty)
          rw [countP_set_same (fun x => x.dirty) pe.blocks block b
            { b with refcount := b.refcount + 1 } hget (by rfl)]
          exact v4
        · show (if b.refcount = 0 then pe.pinned + 1 else pe.pinned) =
            pinned_count (pe.blocks.set block
              { b with refcount := b.refcount + 1 })
          have hpc := pinned_count_set pe.blocks block b hget
            { b with refcount := b.refcount + 1 }
          have h1 : (if 0 < ({ b with refcount := b.refcount + 1 } :
              cached_block_entry).refcount then 1 else 0) = 1 := by simp
          rw [h1] at hpc
          by_cases h0 : b.refcount = 0
          · rw [if_pos h0]
            rw [if_neg (by omega)] at hpc
            omega
          · rw [if_neg h0]
            rw [if_pos (by omega)] at hpc
            omega
        · show pe.refcount + 1 = refcount_sum (pe.blocks.set block
            { b with refcount := b.refcount + 1 })
          have hrs := refcount_sum_set pe.blocks block b hget
            { b with refcount := b.refcount + 1 }
          have hx : ({ b with refcount := b.refcount + 1 } :
              cached_block_entry).refcount = b.refcount + 1 := rfl
          rw [hx] at hrs
          omega
        · show ∀ x ∈ pe.blocks.set block
            { b with refcount := b.refcount + 1 },
              x.refcount ≤ cached_block_entry.max_refcount
          refine forall_mem_set _ pe.blocks block _ v7 ?_
          show b.refcount + 1 ≤ cached_block_entry.max_refcount
          omega

lemma inv_dec_raw (pe : cached_piece_entry) (block : Nat)
    (c : cache_counters) (hinv : piece_inv pe) :
    piece_inv (dec_ref_raw pe block c).1 := by
  cases hget : pe.blocks.get? block with
  | none =>
    rw [dec_raw_absent pe block c hget]
    exact hinv
  | some b =>
    by_cases h0 : b.refcount = 0
    · rw [dec_raw_zero pe block c b hget h0]
      exact hinv
    · rw [dec_raw_pos pe block c b hget h0]
      obtain ⟨v1, v2, v3, v4, ⟨v5a, v5b⟩, v6, v7⟩ := hinv
      have hbm : b.refcount ≤ cached_block_entry.max_refcount :=
        v7 b (List.get?_mem hget)
      refine ⟨v1, ?_, ?_, ?_, ⟨?_, ?_⟩, v6, ?_⟩
      · show (pe.blocks.set block
          { b with refcount := b.refcount - 1 }).length ≤ pe.blocks_in_piece
        rw [List.length_set]
        exact v2
      · show pe.num_blocks = (pe.blocks.set block
          { b with refcount := b.refcount - 1 }).countP (fun x => x.buf)
        rw [countP_set_same (fun x => x.buf) pe.blocks block b
          { b with refcount := b.refcount - 1 } hget (by rfl)]
        exact v3
      · show pe.num_dirty = (pe.blocks.set block
          { b with refcount := b.refcount - 1 }).countP (fun x => x.dirty)
        rw [countP_set_same (fun x => x.dirty) pe.blocks block b
          { b with refcount := b.refcount - 1 } hget (by rfl)]
        exact v4
      · show (if b.refcount = 1 then pe.pinned - 1 else pe.pinned) =
          pinned_count (pe.blocks.set block
            { b with refcount := b.refcount - 1 })
        have hpc := pinned_count_set pe.blocks block b hget
          { b with refcount := b.refcount - 1 }
        have hx : ({ b with refcount := b.refcount - 1 } :
            cached_block_entry).refcount = b.refcount - 1 := rfl
        rw [hx] at hpc
        rw [if_pos (by omega : 0 < b.refcount)] at hpc
        by_cases h1 : b.refcount = 1
        · rw [if_pos h1]
          rw [if_neg (by omega)] at hpc
          omega
        · rw [if_neg h1]
          rw [if_pos (by omega)] at hpc
          omega
      · show pe.refcount - 1 = refcount_sum (pe.blocks.set block
          { b with refcount := b.refcount - 1 })
        have hrs := refcount_sum_set pe.blocks block b hget
          { b with refcount := b.refcount - 1 }
        have hx : ({ b with refcount := b.refcount - 1 } :
            cached_block_entry).refcount = b.refcount - 1 := rfl
        rw [hx] at hrs
        omega
      · show ∀ x ∈ pe.blocks.set block
          { b with refcount := b.refcount - 1 },
            x.refcount ≤ cached_block_entry.max_refcount
        refine forall_mem_set _ pe.blocks block _ v7 ?_
        show b.refcount - 1 ≤ cached_block_entry.max_refcount
        omega

lemma inv_ghost (pe : cached_piece_entry) (hinv : piece_inv pe) :
    piece_inv (demote_to_ghost pe) := by
  obtain ⟨v1, _, _, _, _, v6, _⟩ := hinv
  exact ⟨v1, by show 0 ≤ pe.blocks_in_piece; omega, rfl, rfl, ⟨rfl, rfl⟩,
    v6, by intro x hx; cases hx⟩

lemma inv_maybe_free (pe : cached_piece_entry) (c : cache_counters)
    (hinv : piece_inv pe) (pe2 : cached_piece_entry)
    (h : (maybe_free_piece pe c).1 = Option.some pe2) : piece_inv pe2 := by
  unfold maybe_free_piece at h
  by_cases hev : pe.ok_to_evict true = true
  · rw [if_pos hev] at h
    by_cases hdel : pe.marked_for_deletion = true
    · rw [if_pos hdel] at h
      cases h
    · rw [if_neg hdel] at h
      simp only [Option.some.injEq] at h
      rw [← h]
      exact inv_ghost pe hinv
  · rw [if_neg hev] at h
    simp only [Option.some.injEq] at h
    rw [← h]
    exact hinv

lemma dec_block_absent (pe : cached_piece_entry) (block : Nat)
    (c : cache_counters) (h : pe.blocks.get? block = Option.none) :
    dec_block_refcount pe block c = (Option.some pe, c) := by
  unfold dec_block_refcount
  rw [h]

lemma dec_block_zero (pe : cached_piece_entry) (block : Nat)
    (c : cache_counters) (b : cached_block_entry)
    (hget : pe.blocks.get? block = Option.some b)
    (h0 : b.refcount = 0) :
    dec_block_refcount pe block c = (Option.some pe, c) := by
  unfold dec_block_refcount
  rw [hget]
  simp [h0]

lemma dec_block_pos_free (pe : cached_piece_entry) (block : Nat)
    (c : cache_counters) (b : cached_block_entry)
    (hget : pe.blocks.get? block = Option.some b)
    (h0 : b.refcount ≠ 0)
    (hcond : b.refcount = 1 ∧ b.dirty = false ∧
      (dec_ref_raw pe block c).1.marked_for_eviction = true ∧
      (dec_ref_raw pe block c).1.pinned = 0 ∧
      (dec_ref_raw pe block c).1.piece_refcount = 0) :
    dec_block_refcount pe block c =
      maybe_free_piece (dec_ref_raw pe block c).1
        (dec_ref_raw pe block c).2 := by
  unfold dec_block_refcount
  rw [hget]
  show (if b.refcount = 0 then
      ((Option.some pe, c) : Option cached_piece_entry × cache_counters)
    else
      if b.refcount = 1 ∧ b.dirty = false ∧
          (dec_ref_raw pe block c).1.marked_for_eviction = true ∧
          (dec_ref_raw pe block c).1.pinned = 0 ∧
          (dec_ref_raw pe block c).1.piece_refcount = 0 then
        maybe_free_piece (dec_ref_raw pe block c).1
          (dec_ref_raw pe block c).2
      else (Option.some (dec_ref_raw pe block c).1,
        (dec_ref_raw pe block c).2)) =
    maybe_free_piece (dec_ref_raw pe block c).1 (dec_ref_raw pe block c).2
  rw [if_neg h0, if_pos hcond]

lemma dec_block_pos_nofree (pe : cached_piece_entry) (block : Nat)
    (c : cache_counters) (b : cached_block_entry)
    (hget : pe.blocks.get? block = Option.some b)
    (h0 : b.refcount ≠ 0)
    (hcond : ¬(b.refcount = 1 ∧ b.dirty = false ∧
      (dec_ref_raw pe block c).1.marked_for_eviction = true ∧
      (dec_ref_raw pe block c).1.pinned = 0 ∧
      (dec_ref_raw pe block c).1.piece_refcount = 0)) :
    dec_block_refcount pe block c =
      (Option.some (dec_ref_raw pe block c).1,
       (dec_ref_raw pe block c).2) := by
  unfold dec_block_refcount
  rw [hget]
  show (if b.refcount = 0 then
      ((Option.some pe, c) : Option cached_piece_entry × cache_counters)
    else
      if b.refcount = 1 ∧ b.dirty = false ∧
          (dec_ref_raw pe block c).1.marked_for_eviction = true ∧
          (dec_ref_raw pe block c).1.pinned = 0 ∧
          (dec_ref_raw pe block c).1.piece_refcount = 0 then
        maybe_free_piece (dec_ref_raw pe block c).1
          (dec_ref_raw pe block c).2
      else (Option.some (dec_ref_raw pe block c).1,
        (dec_ref_raw pe block c).2)) =
    (Option.some (dec_ref_raw pe block c).1, (dec_ref_raw pe block c).2)
  rw [if_neg h0, if_neg hcond]

lemma inv_dec (pe : cached_piece_entry) (block : Nat) (c : cache_counters)
    (hinv : piece_inv pe) (pe2 : cached_piece_entry)
    (h : (dec_block_refcount pe block c).1 = Option.some pe2) :
    piece_inv pe2 := by
  cases hget : pe.blocks.get? block with
  | none =>
    rw [dec_block_absent pe block c hget] at h
    simp only [Option.some.injEq] at h
    rw [← h]
    exact hinv
  | some b =>
    by_cases h0 : b.refcount = 0
    · rw [dec_block_zero pe block c b hget h0] at h
      simp only [Option.some.injEq] at h
      rw [← h]
      exact hinv
    · by_cases hcond : b.refcount = 1 ∧ b.dirty = false ∧
          (dec_ref_raw pe block c).1.marked_for_eviction = true ∧
          (dec_ref_raw pe block c).1.pinned = 0 ∧
          (dec_ref_raw pe block c).1.piece_refcount = 0
      · rw [dec_block_pos_free pe block c b hget h0 hcond] at h
        exact inv_maybe_free _ _ (inv_dec_raw pe block c hinv) pe2 h
      · rw [dec_block_pos_nofree pe block c b hget h0 hcond] at h
        simp only [Option.some.injEq] at h
        rw [← h]
        exact inv_dec_raw pe block c hinv


lemma inv_roll_back (pe : cached_piece_entry) (c : cache_counters)
    (taken : List Nat) (hinv : piece_inv pe) :
    piece_inv (roll_back pe c taken).1 :=
  foldl_preserve (fun s : cached_piece_entry × cache_counters =>
      piece_inv s.1)
    (fun s j => dec_ref_raw s.1 j s.2)
    (fun s a hs => inv_dec_raw s.1 a s.2 hs) taken (pe, c) hinv

lemma copy_go_absent (pe : cached_piece_entry) (c : cache_counters)
    (i r : Nat) (taken : List Nat)
    (hget : pe.blocks.get? i = Option.none) :
    copy_from_piece_go pe c i (r + 1) taken =
      (-1, (roll_back pe c taken).1, (roll_back pe c taken).2) := by
  simp [copy_from_piece_go, ← List.get?_eq_getElem?, hget]

lemma copy_go_fail (pe : cached_piece_entry) (c : cache_counters)
    (i r : Nat) (taken : List Nat) (b : cached_block_entry)
    (hget : pe.blocks.get? i = Option.some b)
    (hnb : ¬(b.buf = true ∧ b.pending = false)) :
    copy_from_piece_go pe c i (r + 1) taken =
      (-1, (roll_back pe c taken).1, (roll_back pe c taken).2) := by
  simp [copy_from_piece_go, ← List.get?_eq_getElem?, hget, hnb]

lemma copy_go_sat (pe : cached_piece_entry) (c : cache_counters)
    (i r : Nat) (taken : List Nat) (b : cached_block_entry)
    (hget : pe.blocks.get? i = Option.some b)
    (hok : b.buf = true ∧ b.pending = false)
    (hmax : b.refcount = cached_block_entry.max_refcount) :
    copy_from_piece_go pe c i (r + 1) taken =
      (-1, (roll_back pe c taken).1, (roll_back pe c taken).2) := by
  simp [copy_from_piece_go, ← List.get?_eq_getElem?, hget, hok.1, hok.2,
    inc_saturated pe i c b hget hok.1 hmax]

lemma inv_copy_go :
    ∀ (r i : Nat) (pe : cached_piece_entry) (c : cache_counters)
      (taken : List Nat), piece_inv pe →
      piece_inv (copy_from_piece_go pe c i r taken).2.1 := by
  intro r
  induction r with
  | zero =>
    intro i pe c taken hinv
    exact hinv
  | succ r ih =>
    intro i pe c taken hinv
    cases hget : pe.blocks.get? i with
    | none =>
      rw [copy_go_absent pe c i r taken hget]
      exact inv_roll_back pe c taken hinv
    | some b =>
      by_cases hok : b.buf = true ∧ b.pending = false
      · by_cases hmax : b.refcount = cached_block_entry.max_refcount
        · rw [copy_go_sat pe c i r taken b hget hok hmax]
          exact inv_roll_back pe c taken hinv
        · rw [copy_go_step pe c i r taken b hget hok.1 hok.2 hmax]
          exact ih (i + 1) _ _ (i :: taken) (inv_inc pe i c hinv)
      · rw [copy_go_fail pe c i r taken b hget hok]
        exact inv_roll_back pe c taken hinv

lemma inv_mark_hit_block (pe : cached_piece_entry) (i : Nat)
    (hinv : piece_inv pe) : piece_inv (mark_hit_block pe i) := by
  unfold mark_hit_block
  cases hget : pe.blocks.get? i with
  | none => exact hinv
  | some b =>
    obtain ⟨v1, v2, v3, v4, ⟨v5a, v5b⟩, v6, v7⟩ := hinv
    refine ⟨v1, ?_, ?_, ?_, ⟨?_, ?_⟩, v6, ?_⟩
    · show (pe.blocks.set i { b with cache_hit := true }).length ≤
        pe.blocks_in_piece
      rw [List.length_set]
      exact v2
    · show pe.num_blocks = (pe.blocks.set i
        { b with cache_hit := true }).countP (fun x => x.buf)
      rw [countP_set_same (fun x => x.buf) pe.blocks i b
        { b with cache_hit := true } hget (by rfl)]
      exact v3
    · show pe.num_dirty = (pe.blocks.set i
        { b with cache_hit := true }).countP (fun x => x.dirty)
      rw [countP_set_same (fun x => x.dirty) pe.blocks i b
        { b with cache_hit := true } hget (by rfl)]
      exact v4
    · show pe.pinned = pinned_count (pe.blocks.set i
        { b with cache_hit := true })
      unfold pinned_count
      rw [countP_set_same (fun x => decide (0 < x.refcount)) pe.blocks i b
        { b with cache_hit := true } hget (by rfl)]
      exact v5a
    · show pe.refcount = refcount_sum (pe.blocks.set i
        { b with cache_hit := true })
      have hrs := refcount_sum_set pe.blocks i b hget
        { b with cache_hit := true }
      have hx : ({ b with cache_hit := true } :
          cached_block_entry).refcount = b.refcount := rfl
      rw [hx] at hrs
      omega
    · show ∀ x ∈ pe.blocks.set i { b with cache_hit := true },
        x.refcount ≤ cached_block_entry.max_refcount
      refine forall_mem_set _ pe.blocks i _ v7 ?_
      show b.refcount ≤ cached_block_entry.max_refcount
      exact v7 b (List.get?_mem hget)

lemma inv_mark_hits :
    ∀ (r i : Nat) (pe : cached_piece_entry), piece_inv pe →
      piece_inv (mark_hits pe i r)
  | 0, _, _, h => h
  | r + 1, i, pe, h => inv_mark_hits r (i + 1) _ (inv_mark_hit_block pe i h)

lemma inv_try_read (pe : cached_piece_entry) (c : cache_counters)
    (bstart len : Nat) (hinv : piece_inv pe) :
    piece_inv (try_read pe c bstart len).2.1 := by
  have hbase := inv_copy_go len bstart pe c [] hinv
  unfold try_read copy_from_piece
  show piece_inv ((if (copy_from_piece_go pe c bstart len []).1 = -1 then
      copy_from_piece_go pe c bstart len []
    else ((copy_from_piece_go pe c bstart len []).1,
      mark_hits (copy_from_piece_go pe c bstart len []).2.1 bstart len,
      { (copy_from_piece_go pe c bstart len []).2.2 with
        send_buffer_blocks :=
          (copy_from_piece_go pe c bstart len []).2.2.send_buffer_blocks +
            len })).2.1)
  by_cases hm : (copy_from_piece_go pe c bstart len []).1 = -1
  · rw [if_pos hm]
    exact hbase
  · rw [if_neg hm]
    exact inv_mark_hits len bstart _ hbase

lemma add_dirty_absent (pe : cached_piece_entry) (block job : Nat)
    (c : cache_counters) (hget : pe.blocks.get? block = Option.none) :
    add_dirty_block pe block job c = (pe, c) := by
  unfold add_dirty_block
  rw [hget]

lemma add_dirty_dup (pe : cached_piece_entry) (block job : Nat)
    (c : cache_counters) (b : cached_block_entry)
    (hget : pe.blocks.get? block = Option.some b) (hd : b.dirty = true) :
    add_dirty_block pe block job c = (pe, c) := by
  unfold add_dirty_block
  rw [hget]
  simp [hd]

lemma add_dirty_eq (pe : cached_piece_entry) (block job : Nat)
    (c : cache_counters) (b : cached_block_entry)
    (hget : pe.blocks.get? block = Option.some b) (hd : b.dirty = false) :
    add_dirty_block pe block job c =
      ({ pe with
         blocks := pe.blocks.set block
           { b with buf := true, dirty := true, pending := false }
         num_blocks := if b.buf = true then pe.num_blocks
           else pe.num_blocks + 1
         num_dirty := pe.num_dirty + 1
         cache_state := cache_state_t.write_lru
         jobs := pe.jobs ++ [job] },
       { c with
         write_cache_size := c.write_cache_size + 1
         read_cache_size := if b.buf = true then c.read_cache_size - 1
           else c.read_cache_size }) := by
  unfold add_dirty_block
  rw [hget]
  simp [hd]

lemma inv_add_dirty (pe : cached_piece_entry) (block job : Nat)
    (c : cache_counters) (hinv : piece_inv pe) :
    piece_inv (add_dirty_block pe block job c).1 := by
  cases hget : pe.blocks.get? block with
  | none =>
    rw [add_dirty_absent pe block job c hget]
    exact hinv
  | some b =>
    cases hd : b.dirty with
    | true =>
      rw [add_dirty_dup pe block job c b hget hd]
      exact hinv
    | false =>
      rw [add_dirty_eq pe block job c b hget hd]
      obtain ⟨v1, v2, v3, v4, ⟨v5a, v5b⟩, v6, v7⟩ := hinv
      have hcb := countP_set_add (fun x => x.buf) pe.blocks block b hget
        { b with buf := true, dirty := true, pending := false }
      have hcd := countP_set_add (fun x => x.dirty) pe.blocks block b hget
        { b with buf := true, dirty := true, pending := false }
      refine ⟨v1, ?_, ?_, ?_, ⟨?_, ?_⟩, v6, ?_⟩
      · show (pe.blocks.set block
          { b with buf := true, dirty := true, pending := false }).length ≤
            pe.blocks_in_piece
        rw [List.length_set]
        exact v2
      · show (if b.buf = true then pe.num_blocks else pe.num_blocks + 1) =
          (pe.blocks.set block
            { b with buf := true, dirty := true, pending := false }).countP
            (fun x => x.buf)
        simp only [show ((fun x => x.buf)
          ({ b with buf := true, dirty := true, pending := false } :
            cached_block_entry)) = true from rfl, if_true] at hcb
        cases hbuf : b.buf with
        | true =>
          rw [if_pos rfl]
          simp only [hbuf, if_true] at hcb
          omega
        | false =>
          rw [if_neg (by simp)]
          simp only [hbuf, Bool.false_eq_true, if_false] at hcb
          omega
      · show pe.num_dirty + 1 = (pe.blocks.set block
          { b with buf := true, dirty := true, pending := false }).countP
          (fun x => x.dirty)
        simp only [show ((fun x => x.dirty)
          ({ b with buf := true, dirty := true, pending := false } :
            cached_block_entry)) = true from rfl, if_true] at hcd
        simp only [hd, Bool.false_eq_true, if_false] at hcd
        omega
      · show pe.pinned = pinned_count (pe.blocks.set block
          { b with buf := true, dirty := true, pending := false })
        unfold pinned_count
        rw [countP_set_same (fun x => decide (0 < x.refcount)) pe.blocks
          block b { b with buf := true, dirty := true, pending := false }
          hget (by rfl)]
        exact v5a
      · show pe.refcount = refcount_sum (pe.blocks.set block
          { b with buf := true, dirty := true, pending := false })
        have hrs := refcount_sum_set pe.blocks block b hget
          { b with buf := true, dirty := true, pending := false }
        have hx : ({ b with buf := true, dirty := true, pending := false } :
            cached_block_entry).refcount = b.refcount := rfl
        rw [hx] at hrs
        omega
      · show ∀ x ∈ pe.blocks.set block
          { b with buf := true, dirty := true, pending := false },
          x.refcount ≤ cached_block_entry.max_refcount
        refine forall_mem_set _ pe.blocks block _ v7 ?_
        show b.refcount ≤ cached_block_entry.max_refcount
        exact v7 b (List.get?_mem hget)


lemma flush_one_absent (pe : cached_piece_entry) (c : cache_counters)
    (j : Nat) (hget : pe.blocks.get? j = Option.none) :
    flush_one pe c j = (pe, c) := by
  unfold flush_one
  rw [hget]

lemma flush_one_noop (pe : cached_piece_entry) (c : cache_counters)
    (j : Nat) (b : cached_block_entry)
    (hget : pe.blocks.get? j = Option.some b)
    (hnot : ¬(b.dirty = true ∧ b.pending = false)) :
    flush_one pe c j = (pe, c) := by
  unfold flush_one
  rw [hget]
  simp [hnot]

lemma inv_flush_one (pe : cached_piece_entry) (c : cache_counters)
    (j : Nat) (hinv : piece_inv pe) : piece_inv (flush_one pe c j).1 := by
  cases hget : pe.blocks.get? j with
  | none =>
    rw [flush_one_absent pe c j hget]
    exact hinv
  | some b =>
    by_cases hok : b.dirty = true ∧ b.pending = false
    · rw [flush_one_dirty pe c j b hget hok.1 hok.2]
      obtain ⟨v1, v2, v3, v4, ⟨v5a, v5b⟩, v6, v7⟩ := hinv
      have hcd := countP_set_add (fun x => x.dirty) pe.blocks j b hget
        { b with dirty := false }
      refine ⟨v1, ?_, ?_, ?_, ⟨?_, ?_⟩, v6, ?_⟩
      · show (pe.blocks.set j { b with dirty := false }).length ≤
          pe.blocks_in_piece
        rw [List.length_set]
        exact v2
      · show pe.num_blocks = (pe.blocks.set j
          { b with dirty := false }).countP (fun x => x.buf)
        rw [countP_set_same (fun x => x.buf) pe.blocks j b
          { b with dirty := false } hget (by rfl)]
        exact v3
      · show pe.num_dirty - 1 = (pe.blocks.set j
          { b with dirty := false }).countP (fun x => x.dirty)
        rw [hok.1] at hcd
        simp at hcd
        omega
      · show pe.pinned = pinned_count (pe.blocks.set j
          { b with dirty := false })
        unfold pinned_count
        rw [countP_set_same (fun x => decide (0 < x.refcount)) pe.blocks j b
          { b with dirty := false } hget (by rfl)]
        exact v5a
      · show pe.refcount = refcount_sum (pe.blocks.set j
          { b with dirty := false })
        have hrs := refcount_sum_set pe.blocks j b hget
          { b with dirty := false }
        have hx : ({ b with dirty := false } :
            cached_block_entry).refcount = b.refcount := rfl
        rw [hx] at hrs
        omega
      · show ∀ x ∈ pe.blocks.set j { b with dirty := false },
          x.refcount ≤ cached_block_entry.max_refcount
        refine forall_mem_set _ pe.blocks j _ v7 ?_
        show b.refcount ≤ cached_block_entry.max_refcount
        exact v7 b (List.get?_mem hget)
    · rw [flush_one_noop pe c j b hget hok]
      exact hinv

lemma inv_flush_fold (pe : cached_piece_entry) (c : cache_counters)
    (flushed : List Nat) (hinv : piece_inv pe) :
    piece_inv (flush_fold pe c flushed).1 :=
  foldl_preserve (fun s : cached_piece_entry × cache_counters =>
      piece_inv s.1)
    (fun s j => flush_one s.1 s.2 j)
    (fun s a hs => inv_flush_one s.1 s.2 a hs) flushed (pe, c) hinv

lemma inv_relink (pe : cached_piece_entry) (hinv : piece_inv pe) :
    piece_inv (relink_after_flush pe) := hinv

lemma inv_blocks_flushed (pe : cached_piece_entry) (flushed : List Nat)
    (c : cache_counters) (hinv : piece_inv pe) (pe2 : cached_piece_entry)
    (h : (blocks_flushed pe flushed c).2.1 = Option.some pe2) :
    piece_inv pe2 := by
  have hfold := inv_flush_fold pe c flushed hinv
  by_cases h1 : (flush_fold pe c flushed).1.num_dirty = 0
  · by_cases h2 : (flush_fold pe c flushed).1.need_readback = true ∨
        (flush_fold pe c flushed).1.marked_for_eviction = true
    · by_cases h3 : (flush_fold pe c flushed).1.ok_to_evict true = true
      · by_cases h4 : (flush_fold pe c flushed).1.marked_for_deletion = true
        · have hred : blocks_flushed pe flushed c =
              (true, Option.none,
               release_counters (flush_fold pe c flushed).1
                 (flush_fold pe c flushed).2) := by
            unfold blocks_flushed
            simp [h1, h2, h3, h4]
          rw [hred] at h
          cases h
        · have hred : blocks_flushed pe flushed c =
              (false,
               Option.some (demote_to_ghost (flush_fold pe c flushed).1),
               release_counters (flush_fold pe c flushed).1
                 (flush_fold pe c flushed).2) := by
            unfold blocks_flushed
            simp [h1, h2, h3, h4]
          rw [hred] at h
          simp only [Option.some.injEq] at h
          rw [← h]
          exact inv_ghost _ hfold
      · have hred : blocks_flushed pe flushed c =
            (false, Option.some (flush_fold pe c flushed).1,
             (flush_fold pe c flushed).2) := by
          unfold blocks_flushed
          simp [h1, h2, h3]
        rw [hred] at h
        simp only [Option.some.injEq] at h
        rw [← h]
        exact hfold
    · have hred : blocks_flushed pe flushed c =
          (false,
           Option.some (relink_after_flush (flush_fold pe c flushed).1),
           (flush_fold pe c flushed).2) := by
        unfold blocks_flushed
        simp [h1, h2]
      rw [hred] at h
      simp only [Option.some.injEq] at h
      rw [← h]
      exact inv_relink _ hfold
  · have hred : blocks_flushed pe flushed c =
        (false, Option.some (flush_fold pe c flushed).1,
         (flush_fold pe c flushed).2) := by
      unfold blocks_flushed
      simp [h1]
    rw [hred] at h
    simp only [Option.some.injEq] at h
    rw [← h]
    exact hfold

lemma pinned_count_cons (x : cached_block_entry)
    (l : List cached_block_entry) :
    pinned_count (x :: l) =
      pinned_count l + (if 0 < x.refcount then 1 else 0) := by
  simp [pinned_count, List.countP_cons]

lemma refcount_sum_cons (x : cached_block_entry)
    (l : List cached_block_entry) :
    refcount_sum (x :: l) = x.refcount + refcount_sum l := by
  simp [refcount_sum]

lemma abort_pred_true (x : cached_block_entry)
    (h : abort_pred x = true) :
    x.buf = true ∧ x.dirty = true ∧ x.refcount = 0 := by
  unfold abort_pred at h
  rw [Bool.and_eq_true, Bool.and_eq_true] at h
  exact ⟨h.1.1, h.1.2, by have := h.2; rwa [beq_iff_eq] at this⟩

lemma abort_counts :
    ∀ l : List cached_block_entry,
      (l.map abort_map).countP (fun b => b.buf) + l.countP abort_pred =
          l.countP (fun b => b.buf) ∧
        (l.map abort_map).countP (fun b => b.dirty) +
            l.countP abort_pred =
          l.countP (fun b => b.dirty) ∧
        pinned_count (l.map abort_map) = pinned_count l ∧
        refcount_sum (l.map abort_map) = refcount_sum l := by
  intro l
  induction l with
  | nil => exact ⟨rfl, rfl, rfl, rfl⟩
  | cons x xs ih =>
    obtain ⟨ih1, ih2, ih3, ih4⟩ := ih
    rw [List.map_cons]
    by_cases hx : abort_pred x = true
    · obtain ⟨hbuf, hdirty, hrc⟩ := abort_pred_true x hx
      have hmap : abort_map x = cleared_block := by
        unfold abort_map
        rw [if_pos hx]
      rw [hmap]
      have e1 : (if cleared_block.buf = true then 1 else 0) = 0 := by
        simp [cleared_block]
      have e2 : (if abort_pred x = true then 1 else 0) = 1 := by simp [hx]
      have e3 : (if x.buf = true then 1 else 0) = 1 := by simp [hbuf]
      have e4 : (if x.dirty = true then 1 else 0) = 1 := by simp [hdirty]
      have e5 : (if cleared_block.dirty = true then 1 else 0) = 0 := by
        simp [cleared_block]
      refine ⟨?_, ?_, ?_, ?_⟩
      · rw [List.countP_cons, List.countP_cons, List.countP_cons]
        rw [e1, e2, e3]
        omega
      · rw [List.countP_cons, List.countP_cons, List.countP_cons]
        rw [e5, e2, e4]
        omega
      · rw [pinned_count_cons, pinned_count_cons]
        have hcl : (cleared_block).refcount = 0 := rfl
        rw [hcl, hrc, ih3]
      · rw [refcount_sum_cons, refcount_sum_cons]
        have hcl : (cleared_block).refcount = 0 := rfl
        rw [hcl, hrc, ih4]
    · have hmap : abort_map x = x := by
        unfold abort_map
        rw [if_neg hx]
      rw [hmap]
      have e2 : (if abort_pred x = true then 1 else 0) = 0 := by simp [hx]
      refine ⟨?_, ?_, ?_, ?_⟩
      · rw [List.countP_cons, List.countP_cons, List.countP_cons]
        rw [e2]
        omega
      · rw [List.countP_cons, List.countP_cons, List.countP_cons]
        rw [e2]
        omega
      · rw [pinned_count_cons, pinned_count_cons, ih3]
      · rw [refcount_sum_cons, refcount_sum_cons, ih4]

lemma inv_abort (pe : cached_piece_entry) (c : cache_counters)
    (hinv : piece_inv pe) : piece_inv (abort_dirty pe c).1 := by
  obtain ⟨v1, v2, v3, v4, ⟨v5a, v5b⟩, v6, v7⟩ := hinv
  obtain ⟨a1, a2, a3, a4⟩ := abort_counts pe.blocks
  refine ⟨v1, ?_, ?_, ?_, ⟨?_, ?_⟩, v6, ?_⟩
  · show (pe.blocks.map abort_map).length ≤ pe.blocks_in_piece
    rw [List.length_map]
    exact v2
  · show pe.num_blocks - pe.blocks.countP abort_pred =
      (pe.blocks.map abort_map).countP (fun x => x.buf)
    omega
  · show pe.num_dirty - pe.blocks.countP abort_pred =
      (pe.blocks.map abort_map).countP (fun x => x.dirty)
    omega
  · show pe.pinned = pinned_count (pe.blocks.map abort_map)
    rw [a3]
    exact v5a
  · show pe.refcount = refcount_sum (pe.blocks.map abort_map)
    rw [a4]
    exact v5b
  · show ∀ x ∈ pe.blocks.map abort_map,
      x.refcount ≤ cached_block_entry.max_refcount
    intro x hx
    obtain ⟨y, hy, rfl⟩ := List.mem_map.mp hx
    unfold abort_map
    by_cases hp : abort_pred y = true
    · rw [if_pos hp]
      exact Nat.zero_le _
    · rw [if_neg hp]
      exact v7 y hy


lemma inv_insert_one (pe : cached_piece_entry) (c : cache_counters)
    (i : Nat) (incRef : Bool) (hinv : piece_inv pe) :
    piece_inv (insert_one pe c i incRef).1 := by
  cases hget : pe.blocks.get? i with
  | none =>
    unfold insert_one
    rw [hget]
    exact hinv
  | some b =>
    unfold insert_one
    rw [hget]
    show piece_inv ((if b.buf = true ∧ b.pending = false then (pe, c)
      else
        if incRef = true then
          ((inc_block_refcount
              { pe with
                blocks := pe.blocks.set i
                  { b with buf := true, pending := false }
                num_blocks := if b.buf = true then pe.num_blocks
                  else pe.num_blocks + 1 } i
              (if b.buf = true then c
               else { c with
                 read_cache_size := c.read_cache_size + 1 })).2.1,
           (inc_block_refcount
              { pe with
                blocks := pe.blocks.set i
                  { b with buf := true, pending := false }
                num_blocks := if b.buf = true then pe.num_blocks
                  else pe.num_blocks + 1 } i
              (if b.buf = true then c
               else { c with
                 read_cache_size := c.read_cache_size + 1 })).2.2)
        else
          ({ pe with
             blocks := pe.blocks.set i
               { b with buf := true, pending := false }
             num_blocks := if b.buf = true then pe.num_blocks
               else pe.num_blocks + 1 },
           (if b.buf = true then c
            else { c with
              read_cache_size := c.read_cache_size + 1 }))).1)
    by_cases hov : b.buf = true ∧ b.pending = false
    · rw [if_pos hov]
      exact hinv
    · rw [if_neg hov]
      obtain ⟨v1, v2, v3, v4, ⟨v5a, v5b⟩, v6, v7⟩ := hinv
      have hpe2 : piece_inv
          ({ pe with
             blocks := pe.blocks.set i { b with buf := true, pending := false }
             num_blocks := if b.buf = true then pe.num_blocks
               else pe.num_blocks + 1 }) := by
        have hcb := countP_set_add (fun x => x.buf) pe.blocks i b hget
          { b with buf := true, pending := false }
        refine ⟨v1, ?_, ?_, ?_, ⟨?_, ?_⟩, v6, ?_⟩
        · show (pe.blocks.set i
            { b with buf := true, pending := false }).length ≤
              pe.blocks_in_piece
          rw [List.length_set]
          exact v2
        · show (if b.buf = true then pe.num_blocks else pe.num_blocks + 1) =
            (pe.blocks.set i
              { b with buf := true, pending := false }).countP
              (fun x => x.buf)
          have hval : (if ({ b with buf := true, pending := false } :
              cached_block_entry).buf = true then 1 else 0) = 1 := rfl
          rw [hval] at hcb
          cases hbuf : b.buf with
          | true =>
            rw [if_pos rfl]
            rw [hbuf] at hcb
            have h1 : (if (true = true) then 1 else 0) = 1 := rfl
            rw [h1] at hcb
            omega
          | false =>
            rw [if_neg (by simp)]
            rw [hbuf] at hcb
            have h0 : (if (false = true) then 1 else 0) = 0 := rfl
            rw [h0] at hcb
            omega
        · show pe.num_dirty = (pe.blocks.set i
            { b with buf := true, pending := false }).countP
            (fun x => x.dirty)
          rw [countP_set_same (fun x => x.dirty) pe.blocks i b
            { b with buf := true, pending := false } hget (by rfl)]
          exact v4
        · show pe.pinned = pinned_count (pe.blocks.set i
            { b with buf := true, pending := false })
          unfold pinned_count
          rw [countP_set_same (fun x => decide (0 < x.refcount)) pe.blocks
            i b { b with buf := true, pending := false } hget (by rfl)]
          exact v5a
        · show pe.refcount = refcount_sum (pe.blocks.set i
            { b with buf := true, pending := false })
          have hrs := refcount_sum_set pe.blocks i b hget
            { b with buf := true, pending := false }
          have hx : ({ b with buf := true, pending := false } :
              cached_block_entry).refcount = b.refcount := rfl
          rw [hx] at hrs
          omega
        · show ∀ x ∈ pe.blocks.set i
            { b with buf := true, pending := false },
            x.refcount ≤ cached_block_entry.max_refcount
          refine forall_mem_set _ pe.blocks i _ v7 ?_
          show b.refcount ≤ cached_block_entry.max_refcount
          exact v7 b (List.get?_mem hget)
      cases incRef with
      | true =>
        rw [if_pos rfl]
        exact inv_inc _ i _ hpe2
      | false =>
        rw [if_neg (by simp)]
        exact hpe2

lemma inv_insert_blocks (pe : cached_piece_entry) (c : cache_counters)
    (bstart nbufs : Nat) (incRef : Bool) (hinv : piece_inv pe) :
    piece_inv (insert_blocks pe c bstart nbufs incRef).1 := by
  unfold insert_blocks
  exact foldl_preserve (fun s : cached_piece_entry × cache_counters =>
      piece_inv s.1)
    (fun s k => insert_one s.1 s.2 (bstart + k) incRef)
    (fun s a hs => inv_insert_one s.1 s.2 (bstart + a) incRef hs)
    (List.range nbufs) (pe, c) hinv

lemma inv_evict_go (ignore : Option Nat) :
    ∀ (pieces : List cached_piece_entry) (num : Nat) (c : cache_counters),
      (∀ pe ∈ pieces, piece_inv pe) →
      ∀ pe2 ∈ (try_evict_blocks_go pieces num ignore c).2.1,
        piece_inv pe2 := by
  intro pieces
  induction pieces with
  | nil =>
    intro num c _ pe2 h
    simp [try_evict_blocks_go] at h
  | cons pe rest ih =>
    intro num c hall pe2 h
    by_cases h0 : num = 0
    · subst h0
      rw [go_zero_num] at h
      exact hall pe2 h
    · by_cases hc : evict_candidate ignore pe = true
      · rw [go_evict pe rest num ignore c h0 hc] at h
        rcases List.mem_cons.mp h with he | hm
        · rw [he]
          exact inv_ghost pe (hall pe (List.mem_cons_self pe rest))
        · exact ih _ _ (fun q hq => hall q (List.mem_cons_of_mem _ hq))
            pe2 hm
      · rw [go_skip pe rest num ignore c h0
          (Bool.not_eq_true _ ▸ (by simpa using hc))] at h
        rcases List.mem_cons.mp h with he | hm
        · rw [he]
          exact hall pe (List.mem_cons_self pe rest)
        · exact ih _ _ (fun q hq => hall q (List.mem_cons_of_mem _ hq))
            pe2 hm

lemma inv_update_piece_at (s : block_cache) (pidx : Nat)
    (f : cached_piece_entry → cache_counters →
      Option cached_piece_entry × cache_counters)
    (hf : ∀ pe c pe2, piece_inv pe → (f pe c).1 = Option.some pe2 →
      piece_inv pe2)
    (hall : ∀ pe ∈ s.pieces, piece_inv pe) :
    ∀ pe ∈ (update_piece_at s pidx f).pieces, piece_inv pe := by
  cases hget : s.pieces.get? pidx with
  | none =>
    have hstep : update_piece_at s pidx f = s := by
      unfold update_piece_at
      rw [hget]
    rw [hstep]
    exact hall
  | some pe =>
    cases hres : f pe s.counters with
    | mk o c2 =>
      cases o with
      | none =>
        have hstep : update_piece_at s pidx f =
            { pieces := s.pieces.eraseIdx pidx, counters := c2 } := by
          unfold update_piece_at
          rw [hget]
          show (match f pe s.counters with
            | (Option.none, c2) =>
              ({ pieces := s.pieces.eraseIdx pidx, counters := c2 } :
                block_cache)
            | (Option.some pe2, c2) =>
              ({ pieces := s.pieces.set pidx pe2, counters := c2 } :
                block_cache)) = _
          rw [hres]
        rw [hstep]
        intro q hq
        exact hall q (List.mem_of_mem_eraseIdx hq)
      | some pe2 =>
        have hstep : update_piece_at s pidx f =
            { pieces := s.pieces.set pidx pe2, counters := c2 } := by
          unfold update_piece_at
          rw [hget]
          show (match f pe s.counters with
            | (Option.none, c2) =>
              ({ pieces := s.pieces.eraseIdx pidx, counters := c2 } :
                block_cache)
            | (Option.some pe2, c2) =>
              ({ pieces := s.pieces.set pidx pe2, counters := c2 } :
                block_cache)) = _
          rw [hres]
        rw [hstep]
        intro q hq
        rcases List.mem_or_eq_of_mem_set hq with hmem | he
        · exact hall q hmem
        · rw [he]
          exact hf pe s.counters pe2 (hall pe (List.get?_mem hget))
            (by rw [hres])

lemma inv_apply_op (op : cache_op) (s : block_cache) (h : cache_inv s) :
    cache_inv (apply_op op s) := by
  cases op with
  | op_add_dirty pidx block job =>
    exact inv_update_piece_at s pidx _ (fun pe c pe2 hp hres => by
      simp only [Option.some.injEq] at hres
      rw [← hres]
      exact inv_add_dirty pe block job c hp) h
  | op_try_read pidx bstart len =>
    exact inv_update_piece_at s pidx _ (fun pe c pe2 hp hres => by
      simp only [Option.some.injEq] at hres
      rw [← hres]
      exact inv_try_read pe c bstart len hp) h
  | op_blocks_flushed pidx flushed =>
    exact inv_update_piece_at s pidx _ (fun pe c pe2 hp hres =>
      inv_blocks_flushed pe flushed c hp pe2 hres) h
  | op_inc pidx block =>
    exact inv_update_piece_at s pidx _ (fun pe c pe2 hp hres => by
      simp only [Option.some.injEq] at hres
      rw [← hres]
      exact inv_inc pe block c hp) h
  | op_dec pidx block =>
    exact inv_update_piece_at s pidx _ (fun pe c pe2 hp hres =>
      inv_dec pe block c hp pe2 hres) h
  | op_try_evict num ignore =>
    intro q hq
    have hq2 : q ∈ (try_evict_blocks s.pieces num ignore s.counters).2.1 :=
      hq
    exact inv_evict_go ignore s.pieces num s.counters h q hq2
  | op_abort_dirty pidx =>
    exact inv_update_piece_at s pidx _ (fun pe c pe2 hp hres => by
      simp only [Option.some.injEq] at hres
      rw [← hres]
      exact inv_abort pe c hp) h
  | op_insert_blocks pidx bstart nbufs incRef =>
    exact inv_update_piece_at s pidx _ (fun pe c pe2 hp hres => by
      simp only [Option.some.injEq] at hres
      rw [← hres]
      exact inv_insert_blocks pe c bstart nbufs incRef hp) h

/-- C2: in every cache state satisfying the data-model invariants, after
any complete cache operation (`add_dirty_block`, `try_read`,
`blocks_flushed`, `inc_block_refcount`, `dec_block_refcount`,
`try_evict_blocks`, `abort_dirty`, `insert_blocks`), every piece entry
`p` still has `p.pinned` equal to the number of blocks with
`refcount > 0` and `p.refcount` equal to the sum of its blocks'
refcounts (invariant I3). -/
theorem cache_ops_preserve_I3 (op : cache_op) (s : block_cache)
    (h : cache_inv s) :
    ∀ pe ∈ (apply_op op s).pieces,
      pe.pinned = pinned_count pe.blocks ∧
        pe.refcount = refcount_sum pe.blocks := by
  intro pe hpe
  exact (inv_apply_op op s h pe hpe).2.2.2.2.1

/-- Witness for C2: the one-piece concrete cache keeps I3 after an
`inc_block_refcount` step. -/
theorem cache_ops_preserve_I3_check :
    ((apply_op (cache_op.op_inc 0 0) wcache).pieces.getD 0
        wpiece_write).pinned =
      pinned_count ((apply_op (cache_op.op_inc 0 0) wcache).pieces.getD 0
        wpiece_write).blocks ∧
    ((apply_op (cache_op.op_inc 0 0) wcache).pieces.getD 0
        wpiece_write).refcount =
      refcount_sum ((apply_op (cache_op.op_inc 0 0) wcache).pieces.getD 0
        wpiece_write).blocks :=
  cache_ops_preserve_I3 (cache_op.op_inc 0 0) wcache
    (by unfold cache_inv piece_inv piece_I3; decide) _ (by decide)

/-- C9: every cache operation keeps the packed counters inside their
contracted ranges: in a state satisfying the data-model invariants, the
state after any operation still satisfies them, and every piece then has
`num_blocks ≤ 2¹⁴−1`, `num_dirty ≤ 2¹⁴−1`, `blocks_in_piece ≤ 2¹⁴−1`,
`piece_refcount ≤ 127`, `pinned ≤ 2¹⁵−1` and every block
`refcount ≤ 2²⁹−1`. -/
theorem cache_ops_preserve_ranges (op : cache_op) (s : block_cache)
    (h : cache_inv s) :
    cache_inv (apply_op op s) ∧
      ∀ pe ∈ (apply_op op s).pieces, ranges_ok pe := by
  refine ⟨inv_apply_op op s h, ?_⟩
  intro pe hpe
  obtain ⟨v1, v2, v3, v4, ⟨v5a, v5b⟩, v6, v7⟩ := inv_apply_op op s h pe hpe
  have hb := List.countP_le_length (fun b => b.buf) (l := pe.blocks)
  have hd := List.countP_le_length (fun b => b.dirty) (l := pe.blocks)
  have hp := List.countP_le_length (fun b => decide (0 < b.refcount))
    (l := pe.blocks)
  refine ⟨by omega, by omega, v1, v6, ?_, ?_⟩
  · have hpc : pe.pinned = pe.blocks.countP
        (fun b => decide (0 < b.refcount)) := v5a
    omega
  · intro b hb2
    exact v7 b hb2

/-- Witness for C9: the concrete one-piece cache keeps the invariants and
ranges after an `inc_block_refcount` step. -/
theorem cache_ops_preserve_ranges_check :
    cache_inv (apply_op (cache_op.op_inc 0 0) wcache) :=
  (cache_ops_preserve_ranges (cache_op.op_inc 0 0) wcache
    (by unfold cache_inv piece_inv piece_I3; decide)).1

end BlockCache
